import Mathlib

/-!
Verification of the bf-blackbox-parser repository.

The TypeScript source is shallowly embedded in Lean:
* JavaScript numbers that only ever hold 32-bit integer results of bitwise
  operators are represented by `Int`; each JS bitwise operator first coerces
  its operands with ToUint32/ToInt32 (modelled by `toUInt32` / `int32`),
  exactly as in the ECMAScript semantics.
* `ArrayDataStream` (src/unnamed/part_001) becomes a structure with explicit
  state passing: every reader returns its value together with the new stream.
* Pure helpers from src/src/lib/utils/Utils.ts are translated function by
  function, keeping their names.
-/

set_option maxHeartbeats 1000000

/-- ECMAScript ToUint32: reduce an integer to its unsigned 32-bit residue. -/
def toUInt32 (n : Int) : Nat := (n % 4294967296).toNat

/-- Reinterpret an unsigned 32-bit bit pattern as a signed 32-bit integer
(the value a JS bitwise operator returns). -/
def int32 (u : Nat) : Int := if u < 2147483648 then (u : Int) else (u : Int) - 4294967296

/-- JS bitwise AND on numbers (ToInt32 of the bitwise AND of the operand bits). -/
def jsAnd (a b : Int) : Int := int32 (toUInt32 a &&& toUInt32 b)

/-- JS bitwise OR on numbers. -/
def jsOr (a b : Int) : Int := int32 (toUInt32 a ||| toUInt32 b)

/-- JS bitwise XOR on numbers. -/
def jsXor (a b : Int) : Int := int32 (toUInt32 a ^^^ toUInt32 b)

/-- JS left shift `a << n` (shift count taken mod 32). -/
def jsShl (a : Int) (n : Nat) : Int := int32 (toUInt32 a * 2 ^ (n % 32) % 4294967296)

/-- JS sign-propagating right shift `a >> n`. -/
def jsShr (a : Int) (n : Nat) : Int := Int.fdiv (int32 (toUInt32 a)) (2 ^ (n % 32))

/-- JS unsigned right shift `a >>> n`; the result is a non-negative number. -/
def jsShrU (a : Int) (n : Nat) : Int := ((toUInt32 a / 2 ^ (n % 32) : Nat) : Int)

/-- Source: Utils.ts signExtend24Bit. -/
def signExtend24Bit (u : Int) : Int :=
  if jsAnd u 0x800000 ≠ 0 then jsOr u 0xff000000 else u

/-- Source: Utils.ts signExtend16Bit. -/
def signExtend16Bit (word : Int) : Int :=
  if jsAnd word 0x8000 ≠ 0 then jsOr word 0xffff0000 else word

/-- Source: Utils.ts signExtend14Bit. -/
def signExtend14Bit (word : Int) : Int :=
  if jsAnd word 0x2000 ≠ 0 then jsOr word 0xffffc000 else word

/-- Source: Utils.ts signExtend8Bit. -/
def signExtend8Bit (byte : Int) : Int :=
  if jsAnd byte 0x80 ≠ 0 then jsOr byte 0xffffff00 else byte

/-- Source: Utils.ts signExtend7Bit. -/
def signExtend7Bit (byte : Int) : Int :=
  if jsAnd byte 0x40 ≠ 0 then jsOr byte 0xffffff80 else byte

/-- Source: Utils.ts signExtend6Bit. -/
def signExtend6Bit (byte : Int) : Int :=
  if jsAnd byte 0x20 ≠ 0 then jsOr byte 0xffffffc0 else byte

/-- Source: Utils.ts signExtend5Bit. -/
def signExtend5Bit (byte : Int) : Int :=
  if jsAnd byte 0x10 ≠ 0 then jsOr byte 0xffffffe0 else byte

/-- Source: Utils.ts signExtend4Bit. -/
def signExtend4Bit (nibble : Int) : Int :=
  if jsAnd nibble 0x08 ≠ 0 then jsOr nibble 0xfffffff0 else nibble

/-- Source: Utils.ts signExtend2Bit. -/
def signExtend2Bit (byte : Int) : Int :=
  if jsAnd byte 0x02 ≠ 0 then jsOr byte 0xfffffffc else byte

/-- Mathematical two's-complement reading of a w-bit pattern, widened to a
signed integer: the specification-side definition the helpers are compared
against. -/
def twosComplement (w : Nat) (v : Nat) : Int :=
  if v < 2 ^ (w - 1) then (v : Int) else (v : Int) - 2 ^ w

/-- Source: part_001 ArrayDataStream state. The field `end` of the source is
called `endPos` here because `end` is a reserved word in Lean. Data range is
[start, endPos). -/
structure ArrayDataStream where
  data : List Int
  start : Int
  endPos : Int
  pos : Int
  eof : Bool
deriving Repr, DecidableEq

/-- Indexing into the backing buffer. An out-of-range JS access yields
undefined; it is modelled as 0 here and is never exercised by streams
satisfying the bounds invariant. -/
def dataGet (d : List Int) (i : Int) : Int :=
  if 0 ≤ i ∧ i < d.length then d.getD i.toNat 0 else 0

/-- Source: part_001 constructor. The argument endOpt models the optional
`end` parameter; `!end` is truthy for null/undefined (none) and for 0. -/
def ArrayDataStream.construct (data : List Int) (start : Int) (endOpt : Option Int) :
    ArrayDataStream :=
  { data := data
    start := start
    endPos := match endOpt with
      | none => (data.length : Int)
      | some e => if e = 0 then (data.length : Int) else e
    pos := start
    eof := false }

/-- Construction from a buffer alone (JS default arguments start=0, end=null). -/
def mkStream (data : List Int) : ArrayDataStream :=
  ArrayDataStream.construct data 0 none

/-- Source: part_001 readChar. Returns the character code (the source wraps it
in a one-character string), or EOF = -1 setting the eof flag. -/
def ArrayDataStream.readChar (s : ArrayDataStream) : Int × ArrayDataStream :=
  if s.pos < s.endPos then (dataGet s.data s.pos, { s with pos := s.pos + 1 })
  else (-1, { s with eof := true })

/-- Source: part_001 readByte. -/
def ArrayDataStream.readByte (s : ArrayDataStream) : Int × ArrayDataStream :=
  if s.pos < s.endPos then (dataGet s.data s.pos, { s with pos := s.pos + 1 })
  else (-1, { s with eof := true })

/-- Source: part_001 readU8 (synonym of readByte). -/
def ArrayDataStream.readU8 (s : ArrayDataStream) : Int × ArrayDataStream :=
  s.readByte

/-- Source: part_001 readS8. -/
def ArrayDataStream.readS8 (s : ArrayDataStream) : Int × ArrayDataStream :=
  let r := s.readByte
  (signExtend8Bit r.1, r.2)

/-- Source: part_001 unreadChar (the character argument is ignored by the
source as well; it only decrements pos). -/
def ArrayDataStream.unreadChar (s : ArrayDataStream) : ArrayDataStream :=
  { s with pos := s.pos - 1 }

/-- Source: part_001 peekChar. -/
def ArrayDataStream.peekChar (s : ArrayDataStream) : Int × ArrayDataStream :=
  if s.pos < s.endPos then (dataGet s.data s.pos, s)
  else (-1, { s with eof := true })

/-- Loop of the readLine scan: advance while below endPos and the current
byte is neither a newline (10) nor 0. The fuel only bounds the recursion;
readLineEnd supplies (endPos - pos).toNat, which is exact: when it runs out
the position has reached endPos and the loop guard is false anyway. -/
def readLineEndAux (d : List Int) (endPos : Int) : Int → Nat → Int
  | pos, 0 => pos
  | pos, fuel + 1 =>
    if pos < endPos ∧ dataGet d pos ≠ 10 ∧ dataGet d pos ≠ 0 then
      readLineEndAux d endPos (pos + 1) fuel
    else pos

/-- Position after the readLine scan. -/
def readLineEnd (d : List Int) (endPos pos : Int) : Int :=
  readLineEndAux d endPos pos (endPos - pos).toNat

/-- Source: part_001 readLine. Returns the character codes of the line (the
source converts them to a string). -/
def ArrayDataStream.readLine (s : ArrayDataStream) : List Int × ArrayDataStream :=
  let p := readLineEnd s.data s.endPos s.pos
  ((List.range (p - s.pos).toNat).map (fun j => dataGet s.data (s.pos + j)),
   { s with pos := p })

/-- Loop of readString: length readChar calls, collecting the codes. -/
def readStringAux : Nat → ArrayDataStream → List Int × ArrayDataStream
  | 0, s => ([], s)
  | n + 1, s =>
    let r := s.readChar
    let rest := readStringAux n r.2
    (r.1 :: rest.1, rest.2)

/-- Source: part_001 readString. -/
def ArrayDataStream.readString (s : ArrayDataStream) (length : Nat) :
    List Int × ArrayDataStream :=
  readStringAux length s

/-- Source: part_001 readS16. -/
def ArrayDataStream.readS16 (s : ArrayDataStream) : Int × ArrayDataStream :=
  let r1 := s.readByte
  let r2 := r1.2.readByte
  (signExtend16Bit (jsOr r1.1 (jsShl r2.1 8)), r2.2)

/-- Source: part_001 readU16. -/
def ArrayDataStream.readU16 (s : ArrayDataStream) : Int × ArrayDataStream :=
  let r1 := s.readByte
  let r2 := r1.2.readByte
  (jsOr r1.1 (jsShl r2.1 8), r2.2)

/-- Source: part_001 readU32. -/
def ArrayDataStream.readU32 (s : ArrayDataStream) : Int × ArrayDataStream :=
  let r1 := s.readByte
  let r2 := r1.2.readByte
  let r3 := r2.2.readByte
  let r4 := r3.2.readByte
  (jsOr (jsOr (jsOr r1.1 (jsShl r2.1 8)) (jsShl r3.1 16)) (jsShl r4.1 24), r4.2)

/-- Loop of readUnsignedVB; the fuel counts the remaining of the 5 permitted
bytes, so fuel 0 is the "VB-encoded int is too long" exit returning 0. The
constant -129 is the JS value of the source expression ~0x80. -/
def readUnsignedVBLoop : Nat → ArrayDataStream → Nat → Int → Int × ArrayDataStream
  | 0, s, _, _ => (0, s)
  | fuel + 1, s, shift, result =>
    let r := s.readByte
    if r.1 = -1 then (0, r.2)
    else
      let result1 := jsOr result (jsShl (jsAnd r.1 (-129)) shift)
      if r.1 < 128 then (jsShrU result1 0, r.2)
      else readUnsignedVBLoop fuel r.2 (shift + 7) result1

/-- Source: part_001 readUnsignedVB. -/
def ArrayDataStream.readUnsignedVB (s : ArrayDataStream) : Int × ArrayDataStream :=
  readUnsignedVBLoop 5 s 0 0

/-- Source: part_001 readSignedVB (ZigZag decoding of readUnsignedVB). -/
def ArrayDataStream.readSignedVB (s : ArrayDataStream) : Int × ArrayDataStream :=
  let r := s.readUnsignedVB
  (jsXor (jsShrU r.1 1) (-(jsAnd r.1 1)), r.2)

/-- Inner j-loop of nextOffsetOf: advance j while j < needle.length and the
bytes keep matching; returns the final j. The fuel only bounds the recursion;
nextOffsetInner always supplies enough for the loop to run to its natural
exit. -/
def nextOffsetInnerAux (d needle : List Int) (i : Int) : Nat → Nat → Nat
  | j, 0 => j
  | j, fuel + 1 =>
    if j < needle.length ∧ dataGet d (i + j) = needle.getD j 0 then
      nextOffsetInnerAux d needle i (j + 1) fuel
    else j

/-- Inner j-loop of nextOffsetOf at its natural fuel. -/
def nextOffsetInner (d needle : List Int) (i : Int) (j : Nat) : Nat :=
  nextOffsetInnerAux d needle i j (needle.length + 1 - j)

/-- Outer i-loop of nextOffsetOf, scanning from i up to endPos -
needle.length. The fuel only bounds the recursion; when it runs out the scan
is already past the search range, where the loop returns -1 anyway. -/
def nextOffsetAuxF (d needle : List Int) (endPos : Int) : Int → Nat → Int
  | _, 0 => -1
  | i, fuel + 1 =>
    if i ≤ endPos - needle.length then
      if dataGet d i = needle.getD 0 0 ∧ nextOffsetInner d needle i 1 = needle.length then i
      else nextOffsetAuxF d needle endPos (i + 1) fuel
    else -1

/-- Outer i-loop of nextOffsetOf at its natural fuel. -/
def nextOffsetAux (d needle : List Int) (endPos : Int) (i : Int) : Int :=
  nextOffsetAuxF d needle endPos i ((endPos - needle.length + 1 - i).toNat)

/-- Source: part_001 nextOffsetOf (does not move pos). -/
def ArrayDataStream.nextOffsetOf (s : ArrayDataStream) (needle : List Int) : Int :=
  nextOffsetAux s.data needle s.endPos s.pos

/-- Loop of allIndicesOf. Each found index moves pos to index + marker.length
and the search repeats; -1 appends endPos as the sentinel and stops. The fuel
only serves termination: the instance used by allIndicesOf gives it enough
fuel that the 0 case is never reached (proved with the claims below). -/
def allIndicesAux (d marker : List Int) (endPos : Int) : Int → Nat → List Int × Int
  | pos, 0 => ([], pos)
  | pos, fuel + 1 =>
    let index := nextOffsetAux d marker endPos pos
    if index = -1 then ([endPos], pos)
    else
      let rest := allIndicesAux d marker endPos (index + marker.length) fuel
      (index :: rest.1, rest.2)

/-- Source: part_001 allIndicesOf. -/
def ArrayDataStream.allIndicesOf (s : ArrayDataStream) (marker : List Int) :
    List Int × ArrayDataStream :=
  let r := allIndicesAux s.data marker s.endPos s.pos ((s.endPos - s.pos).toNat + 1)
  (r.1, { s with pos := r.2 })

/-- Shared case-3 loop of readTag2_3S32 and readTag2_3SVariable: three fields
of 8/16/24/32 bits, sizes selected by successive low bit pairs of the lead
byte. -/
def readTagMixedLoop : Nat → Nat → Int → ArrayDataStream → List Int →
    List Int × ArrayDataStream
  | 0, _, _, s, values => (values, s)
  | fuel + 1, i, leadByte, s, values =>
    let sel := jsAnd leadByte 0x03
    if sel = 0 then
      let r1 := s.readByte
      readTagMixedLoop fuel (i + 1) (jsShr leadByte 2) r1.2
        (values.set i (signExtend8Bit r1.1))
    else if sel = 1 then
      let r1 := s.readByte
      let r2 := r1.2.readByte
      readTagMixedLoop fuel (i + 1) (jsShr leadByte 2) r2.2
        (values.set i (signExtend16Bit (jsOr r1.1 (jsShl r2.1 8))))
    else if sel = 2 then
      let r1 := s.readByte
      let r2 := r1.2.readByte
      let r3 := r2.2.readByte
      readTagMixedLoop fuel (i + 1) (jsShr leadByte 2) r3.2
        (values.set i (signExtend24Bit (jsOr (jsOr r1.1 (jsShl r2.1 8)) (jsShl r3.1 16))))
    else
      let r1 := s.readByte
      let r2 := r1.2.readByte
      let r3 := r2.2.readByte
      let r4 := r3.2.readByte
      readTagMixedLoop fuel (i + 1) (jsShr leadByte 2) r4.2
        (values.set i (jsOr (jsOr (jsOr r1.1 (jsShl r2.1 8)) (jsShl r3.1 16)) (jsShl r4.1 24)))

/-- Source: part_001 readTag2_3S32. -/
def ArrayDataStream.readTag2_3S32 (s : ArrayDataStream) (values : List Int) :
    List Int × ArrayDataStream :=
  let r := s.readByte
  let leadByte := r.1
  let s1 := r.2
  let sel := jsShr leadByte 6
  if sel = 0 then
    (((values.set 0 (signExtend2Bit (jsAnd (jsShr leadByte 4) 0x03))).set 1
        (signExtend2Bit (jsAnd (jsShr leadByte 2) 0x03))).set 2
      (signExtend2Bit (jsAnd leadByte 0x03)), s1)
  else if sel = 1 then
    let v0 := values.set 0 (signExtend4Bit (jsAnd leadByte 0x0f))
    let r2 := s1.readByte
    ((v0.set 1 (signExtend4Bit (jsShr r2.1 4))).set 2
      (signExtend4Bit (jsAnd r2.1 0x0f)), r2.2)
  else if sel = 2 then
    let v0 := values.set 0 (signExtend6Bit (jsAnd leadByte 0x3f))
    let r2 := s1.readByte
    let v1 := v0.set 1 (signExtend6Bit (jsAnd r2.1 0x3f))
    let r3 := r2.2.readByte
    (v1.set 2 (signExtend6Bit (jsAnd r3.1 0x3f)), r3.2)
  else if sel = 3 then
    readTagMixedLoop 3 0 leadByte s1 values
  else
    (values, s1)

/-- Source: part_001 readTag2_3SVariable. Case 2 is translated exactly as
written in the source: it assigns values[1] twice and never assigns
values[0]. -/
def ArrayDataStream.readTag2_3SVariable (s : ArrayDataStream) (values : List Int) :
    List Int × ArrayDataStream :=
  let r := s.readByte
  let leadByte := r.1
  let s1 := r.2
  let sel := jsShr leadByte 6
  if sel = 0 then
    (((values.set 0 (signExtend2Bit (jsAnd (jsShr leadByte 4) 0x03))).set 1
        (signExtend2Bit (jsAnd (jsShr leadByte 2) 0x03))).set 2
      (signExtend2Bit (jsAnd leadByte 0x03)), s1)
  else if sel = 1 then
    let v0 := values.set 0 (signExtend5Bit (jsShr (jsAnd leadByte 0x3e) 1))
    let r2 := s1.readByte
    ((v0.set 1 (signExtend5Bit (jsOr (jsShl (jsAnd leadByte 0x01) 5)
        (jsShr (jsAnd r2.1 0x0f) 4)))).set 2
      (signExtend4Bit (jsAnd r2.1 0x0f)), r2.2)
  else if sel = 2 then
    let r2 := s1.readByte
    let v1 := values.set 1 (signExtend8Bit (jsOr (jsShl (jsAnd leadByte 0x3f) 2)
        (jsShr (jsAnd r2.1 0xc0) 6)))
    let r3 := r2.2.readByte
    let v1b := v1.set 1 (signExtend7Bit (jsOr (jsShl (jsAnd r2.1 0x3f) 1)
        (jsShr (jsAnd r2.1 0x80) 7)))
    (v1b.set 2 (signExtend7Bit (jsAnd r3.1 0x7f)), r3.2)
  else if sel = 3 then
    readTagMixedLoop 3 0 leadByte s1 values
  else
    (values, s1)

/-- Loop of readTag8_4S16_v1. A 4-bit case consumes two slots in one
iteration, exactly as the i++ in the source does. Writes past the end of
values are dropped (JS would grow the array); no claim depends on them. -/
def readTag8_4S16_v1Loop : Nat → Nat → Int → ArrayDataStream → List Int →
    List Int × ArrayDataStream
  | 0, _, _, s, values => (values, s)
  | fuel + 1, i, selector, s, values =>
    if i < 4 then
      let sel := jsAnd selector 0x03
      if sel = 0 then
        readTag8_4S16_v1Loop fuel (i + 1) (jsShr selector 2) s (values.set i 0)
      else if sel = 1 then
        let r := s.readByte
        let vA := values.set i (signExtend4Bit (jsAnd r.1 0x0f))
        let vB := vA.set (i + 1) (signExtend4Bit (jsShr r.1 4))
        readTag8_4S16_v1Loop fuel (i + 2) (jsShr (jsShr selector 2) 2) r.2 vB
      else if sel = 2 then
        let r := s.readByte
        readTag8_4S16_v1Loop fuel (i + 1) (jsShr selector 2) r.2
          (values.set i (signExtend8Bit r.1))
      else
        let r1 := s.readByte
        let r2 := r1.2.readByte
        readTag8_4S16_v1Loop fuel (i + 1) (jsShr selector 2) r2.2
          (values.set i (signExtend16Bit (jsOr r1.1 (jsShl r2.1 8))))
    else (values, s)

/-- Source: part_001 readTag8_4S16_v1. -/
def ArrayDataStream.readTag8_4S16_v1 (s : ArrayDataStream) (values : List Int) :
    List Int × ArrayDataStream :=
  let r := s.readByte
  readTag8_4S16_v1Loop 4 0 r.1 r.2 values

/-- Loop of readTag8_4S16_v2, carrying the rolling nibble cursor and buffer. -/
def readTag8_4S16_v2Loop : Nat → Nat → Int → Int → Int → ArrayDataStream → List Int →
    List Int × ArrayDataStream
  | 0, _, _, _, _, s, values => (values, s)
  | fuel + 1, i, selector, nibbleIndex, buffer, s, values =>
    let sel := jsAnd selector 0x03
    if sel = 0 then
      readTag8_4S16_v2Loop fuel (i + 1) (jsShr selector 2) nibbleIndex buffer s
        (values.set i 0)
    else if sel = 1 then
      if nibbleIndex = 0 then
        let r := s.readByte
        readTag8_4S16_v2Loop fuel (i + 1) (jsShr selector 2) 1 r.1 r.2
          (values.set i (signExtend4Bit (jsShr r.1 4)))
      else
        readTag8_4S16_v2Loop fuel (i + 1) (jsShr selector 2) 0 buffer s
          (values.set i (signExtend4Bit (jsAnd buffer 0x0f)))
    else if sel = 2 then
      if nibbleIndex = 0 then
        let r := s.readByte
        readTag8_4S16_v2Loop fuel (i + 1) (jsShr selector 2) nibbleIndex buffer r.2
          (values.set i (signExtend8Bit r.1))
      else
        let char1 := jsShl (jsAnd buffer 0x0f) 4
        let r := s.readByte
        readTag8_4S16_v2Loop fuel (i + 1) (jsShr selector 2) nibbleIndex r.1 r.2
          (values.set i (signExtend8Bit (jsOr char1 (jsShr r.1 4))))
    else
      if nibbleIndex = 0 then
        let r1 := s.readByte
        let r2 := r1.2.readByte
        readTag8_4S16_v2Loop fuel (i + 1) (jsShr selector 2) nibbleIndex buffer r2.2
          (values.set i (signExtend16Bit (jsOr (jsShl r1.1 8) r2.1)))
      else
        let r1 := s.readByte
        let r2 := r1.2.readByte
        readTag8_4S16_v2Loop fuel (i + 1) (jsShr selector 2) nibbleIndex r2.1 r2.2
          (values.set i (signExtend16Bit
            (jsOr (jsOr (jsShl (jsAnd buffer 0x0f) 12) (jsShl r1.1 4)) (jsShr r2.1 4))))

/-- Source: part_001 readTag8_4S16_v2. The JS variable buffer starts
undefined; it is modelled as 0, and is only read after being assigned on every
path that reads it. -/
def ArrayDataStream.readTag8_4S16_v2 (s : ArrayDataStream) (values : List Int) :
    List Int × ArrayDataStream :=
  let r := s.readByte
  readTag8_4S16_v2Loop 4 0 r.1 0 0 r.2 values

/-- Loop of readTag8_8SVB over the 8 bitmap bits. -/
def readTag8_8SVBLoop : Nat → Nat → Int → ArrayDataStream → List Int →
    List Int × ArrayDataStream
  | 0, _, _, s, values => (values, s)
  | fuel + 1, i, header, s, values =>
    if jsAnd header 0x01 ≠ 0 then
      let r := s.readSignedVB
      readTag8_8SVBLoop fuel (i + 1) (jsShr header 1) r.2 (values.set i r.1)
    else
      readTag8_8SVBLoop fuel (i + 1) (jsShr header 1) s (values.set i 0)

/-- Source: part_001 readTag8_8SVB. -/
def ArrayDataStream.readTag8_8SVB (s : ArrayDataStream) (values : List Int)
    (valueCount : Nat) : List Int × ArrayDataStream :=
  if valueCount = 1 then
    let r := s.readSignedVB
    (values.set 0 r.1, r.2)
  else
    let r := s.readByte
    readTag8_8SVBLoop 8 0 r.1 r.2 values

/-- Bounds invariant of a stream (spec section 3): start <= pos <= endPos <=
length of data, together with 0 <= start so that all positions are valid
indices. -/
def StreamInv (s : ArrayDataStream) : Prop :=
  0 ≤ s.start ∧ s.start ≤ s.pos ∧ s.pos ≤ s.endPos ∧ s.endPos ≤ (s.data.length : Int)

/-- Reference variable-byte encoder from the claim: 7 data bits per byte,
continuation bit 0x80, least-significant group first. -/
def encodeVB (u : Nat) : List Int :=
  if u < 128 then [(u : Int)] else ((u % 128 + 128 : Nat) : Int) :: encodeVB (u / 128)
termination_by u
decreasing_by
  omega

/-- ZigZag encoding of a signed integer (the claim: readSignedVB applied to
the ZigZag encoding of s yields s). -/
def encodeZigZag (s : Int) : Nat :=
  if 0 ≤ s then (2 * s).toNat else (-2 * s - 1).toNat

/-- Occurrence of a marker at offset i of the buffer: all marker bytes match
the buffer there. -/
def occursAt (d marker : List Int) (i : Int) : Prop :=
  ∀ j : Nat, j < marker.length → dataGet d (i + j) = marker.getD j 0

instance (d marker : List Int) (i : Int) : Decidable (occursAt d marker i) := by
  unfold occursAt
  infer_instance

/-- Source: Utils.ts binarySearchOrPrevious loop. Fuel-based rendering of the
while loop; binarySearchOrPrevious supplies enough fuel that the 0 case is
only reached with min >= max, where the loop exits with result anyway. -/
def binarySearchOrPreviousAux (list : List Int) (item : Int) : Nat → Nat → Int → Nat → Int
  | _, _, result, 0 => result
  | min, max, result, fuel + 1 =>
    if min < max then
      if list.getD ((min + max) / 2) 0 = item then (((min + max) / 2 : Nat) : Int)
      else if list.getD ((min + max) / 2) 0 < item then
        binarySearchOrPreviousAux list item ((min + max) / 2 + 1) max
          (((min + max) / 2 : Nat) : Int) fuel
      else binarySearchOrPreviousAux list item min ((min + max) / 2) result fuel
    else result

/-- Source: Utils.ts binarySearchOrPrevious. -/
def binarySearchOrPrevious (list : List Int) (item : Int) : Int :=
  binarySearchOrPreviousAux list item 0 list.length 0 (list.length + 1)

/-- Source: Utils.ts binarySearchOrNext loop, rendered like the previous one. -/
def binarySearchOrNextAux (list : List Int) (item : Int) : Nat → Nat → Int → Nat → Int
  | _, _, result, 0 => result
  | min, max, result, fuel + 1 =>
    if min < max then
      if list.getD ((min + max) / 2) 0 = item then (((min + max) / 2 : Nat) : Int)
      else if item < list.getD ((min + max) / 2) 0 then
        binarySearchOrNextAux list item min ((min + max) / 2)
          (((min + max) / 2 : Nat) : Int) fuel
      else binarySearchOrNextAux list item ((min + max) / 2 + 1) max result fuel
    else result

/-- Source: Utils.ts binarySearchOrNext. -/
def binarySearchOrNext (list : List Int) (item : Int) : Int :=
  binarySearchOrNextAux list item 0 list.length ((list.length : Int) - 1) (list.length + 1)

/-- JavaScript value produced by parseCommaSeparatedString: a number (JS
numbers restricted to the rationals, which covers every value the parse
builtins can produce on decimal input), the literal string fallback (a string
is modelled, as everywhere in this file, by its list of character codes), or
the null padding. -/
inductive JSVal where
  | num (q : Rat)
  | str (s : List Nat)
  | null
deriving DecidableEq, Repr

/-- Decimal digit test on a character code. -/
def isDigitCode (c : Nat) : Bool := 48 ≤ c ∧ c ≤ 57

/-- Whitespace test on a character code (space, tab, line feed, carriage
return). -/
def isSpaceCode (c : Nat) : Bool := c = 32 ∨ c = 9 ∨ c = 10 ∨ c = 13

/-- Numeric value of a list of decimal digit codes. -/
def digitsVal (l : List Nat) : Nat :=
  l.foldl (fun a c => a * 10 + (c - 48)) 0

/-- Optional sign at the head of a code list: code 45 is a minus, 43 a
plus. -/
def readSign (l : List Nat) : Int × List Nat :=
  if l.headD 0 = 45 then (-1, l.tail)
  else if l.headD 0 = 43 then (1, l.tail)
  else (1, l)

/-- ECMAScript parseInt with radix 10, as called by parseCommaSeparatedString:
skip leading whitespace, read an optional sign and then the longest prefix of
decimal digits; no digits means NaN, modelled as none. -/
def jsParseInt10 (s : List Nat) : Option Int :=
  let signed := readSign (s.dropWhile isSpaceCode)
  let digits := signed.2.takeWhile isDigitCode
  if digits = [] then none
  else some (signed.1 * (digitsVal digits : Int))

/-- ECMAScript parseFloat restricted to decimal literals (optional sign,
digits, optional fraction, optional exponent); the special Infinity form is
not modelled, it never arises in the inputs considered here. No digits at all
means NaN, modelled as none; code 46 is the dot, 101 and 69 are e and E. -/
def jsParseFloat (s : List Nat) : Option Rat :=
  let signed := readSign (s.dropWhile isSpaceCode)
  let intDigits := signed.2.takeWhile isDigitCode
  let afterInt := signed.2.dropWhile isDigitCode
  let fracDigits :=
    if afterInt.headD 0 = 46 then afterInt.tail.takeWhile isDigitCode else []
  let afterFrac :=
    if afterInt.headD 0 = 46 then afterInt.tail.dropWhile isDigitCode else afterInt
  if intDigits = [] ∧ fracDigits = [] then none
  else
    let mantissa : Rat :=
      (digitsVal intDigits : Rat) +
        (digitsVal fracDigits : Rat) / ((10 : Rat) ^ fracDigits.length)
    let expPart : Rat :=
      if afterFrac.headD 0 = 101 ∨ afterFrac.headD 0 = 69 then
        let esigned := readSign afterFrac.tail
        let eDigits := esigned.2.takeWhile isDigitCode
        if eDigits = [] then 1 else (10 : Rat) ^ (esigned.1 * (digitsVal eDigits : Int))
      else 1
    some (signed.1 * mantissa * expPart)

/-- Split of a code list at commas, code 44 (JS String.prototype.split with
separator ","). -/
def splitOnCommaAux : List Nat → List Nat → List (List Nat)
  | [], acc => [acc.reverse]
  | c :: rest, acc =>
    if c = 44 then acc.reverse :: splitOnCommaAux rest []
    else splitOnCommaAux rest (c :: acc)

/-- JS split of a string on the "," separator. -/
def jsSplitOnComma (s : List Nat) : List (List Nat) :=
  splitOnCommaAux s []

/-- Position of the first dot (code 46) in a string, or -1 when absent (JS
String.prototype.indexOf with a one character pattern). -/
def jsStringIndexOfDot (s : List Nat) : Int :=
  match s.findIdx? (fun c => c = 46) with
  | some k => (k : Int)
  | none => -1

/-- Coercion applied to one comma-separated part by parseCommaSeparatedString:
the source tests parts[i].indexOf(".") for truthiness, so parseFloat is used
unless the first dot sits at position 0 (including the no-dot case, where
indexOf returns the truthy -1), and parseInt only when the part starts with a
dot; a NaN result falls back to the literal part. -/
def coercePart (p : List Nat) : JSVal :=
  let value : Option Rat :=
    if jsStringIndexOfDot p ≠ 0 then jsParseFloat p
    else (jsParseInt10 p).map (fun n => (n : Rat))
  match value with
  | some q => JSVal.num q
  | none => JSVal.str p

/-- Source: Utils.ts parseCommaSeparatedString. The scalar branch (forced
length < 2) applies the same truthy indexOf test to the whole parts array:
that array contains the one-character string "." only when the entire input
is ".", in which case parseInt of the joined array (the original string)
runs; otherwise parseFloat of it does. -/
def parseCommaSeparatedString (string : List Nat) (length : Nat) :
    Sum JSVal (List JSVal) :=
  let parts := jsSplitOnComma string
  let len := if length = 0 then parts.length else length
  if len < 2 then
    Sum.inl
      (let value : Option Rat :=
        if parts.indexOf [46] ≠ 0 then jsParseFloat string
        else (jsParseInt10 string).map (fun n => (n : Rat))
      match value with
      | some q => JSVal.num q
      | none => JSVal.str string)
  else
    Sum.inr ((List.range len).map fun i =>
      if i < parts.length then coercePart (parts.getD i []) else JSVal.null)

/-- A JavaScript value as stored in the parser's sysConfig slots: a number
(restricted to the rationals), a string (list of character codes), null,
undefined, or NaN. -/
inductive JsDyn where
  | num (q : Rat)
  | str (s : List Nat)
  | nullv
  | undef
  | nan
deriving DecidableEq, Repr

/-- Character codes of a Lean string literal (all strings in the sources are
ASCII). -/
def codes (s : String) : List Nat := s.data.map Char.toNat

/-- ASCII lower-casing of one character code, for the case-insensitive regex
matches. -/
def lowerCode (c : Nat) : Nat := if 65 ≤ c ∧ c ≤ 90 then c + 32 else c

/-- The values produced by parseCommaSeparatedString, injected into the
sysConfig value type. -/
def jsvToDyn : JSVal → JsDyn
  | JSVal.num q => JsDyn.num q
  | JSVal.str s => JsDyn.str s
  | JSVal.null => JsDyn.nullv

/-- A parseCommaSeparatedString result (scalar or array) over sysConfig
values. -/
def pcssToDyn : Sum JSVal (List JSVal) → Sum JsDyn (List JsDyn)
  | Sum.inl v => Sum.inl (jsvToDyn v)
  | Sum.inr l => Sum.inr (l.map jsvToDyn)

/-- parseInt result as a sysConfig value (none is NaN). -/
def numOrNaN : Option Int → JsDyn
  | some n => JsDyn.num (n : Rat)
  | none => JsDyn.nan

/-- JS indexing v[i] on a parseCommaSeparatedString result: array indexing
with undefined out of range; on a scalar string the i-th character; on a
scalar number undefined (property access on a primitive). The null scalar
cannot arise from parseCommaSeparatedString. -/
def dynIdx (v : Sum JsDyn (List JsDyn)) (i : Nat) : JsDyn :=
  match v with
  | Sum.inr l => l.getD i JsDyn.undef
  | Sum.inl (JsDyn.str s) => if i < s.length then JsDyn.str [s.getD i 0] else JsDyn.undef
  | Sum.inl _ => JsDyn.undef

/-- JS array index assignment a[i] = v: in-range writes the slot, out of range
extends the array, the intervening holes reading back as undefined. -/
def setExtend (l : List JsDyn) (i : Nat) (v : JsDyn) : List JsDyn :=
  if i < l.length then l.set i v
  else l ++ List.replicate (i - l.length) JsDyn.undef ++ [v]

/-- JS array length assignment a.length = n: truncate or extend with holes
(read back as undefined). -/
def resizeHoles (l : List JsDyn) (n : Nat) : List JsDyn :=
  l.take n ++ List.replicate (n - l.length) JsDyn.undef

/-- Substring of a code list by positions [a, b). -/
def sliceCodes (l : List Nat) (a b : Nat) : List Nat := (l.drop a).take (b - a)

/-- The character class of the regex dot (no /s flag): any character except a
line terminator; in the byte range these are 10 and 13. -/
def dotChar (c : Nat) : Bool := c ≠ 10 ∧ c ≠ 13

/-- All characters of positions [a, b) lie in the dot class. -/
def dotRun (l : List Nat) (a b : Nat) : Bool := (sliceCodes l a b).all dotChar

/-- Greedy loop for the trailing (\.(\d+))* of the firmware-revision regex:
consume as many ".digits" repetitions as possible; the capture of a starred
group is the last repetition's digits (none when zero repetitions ran). The
fuel is the remaining length, which each repetition strictly decreases. -/
def starRepsAux : Nat → List Nat → Option (List Nat) → Option (List Nat)
  | 0, _, acc => acc
  | fuel + 1, t, acc =>
    if t.headD 0 = 46 ∧ t.tail.takeWhile isDigitCode ≠ [] then
      starRepsAux fuel (t.tail.dropWhile isDigitCode) (some (t.tail.takeWhile isDigitCode))
    else acc

/-- Match of the suffix (\d+)\.(\d+)(\.(\d+))* of the Betaflight
firmware-revision regex at the head of t, returning the three digit captures.
A greedy (\d+) followed by a literal dot admits exactly the maximal digit run
(any shorter run is followed by a digit, which is not a dot), so no
backtracking is needed here. -/
def bfTailMatch (t : List Nat) : Option (List Nat × List Nat × Option (List Nat)) :=
  let d1 := t.takeWhile isDigitCode
  let r1 := t.dropWhile isDigitCode
  if d1 = [] then none
  else if r1.headD 0 ≠ 46 then none
  else
    let d2 := r1.tail.takeWhile isDigitCode
    let r2 := r1.tail.dropWhile isDigitCode
    if d2 = [] then none
    else some (d1, d2, starRepsAux r2.length r2 none)

/-- Candidate positions k of the literal space of /(.*flight).* (\d+).../ once
group 1 ends at j: the middle .* spans [j, k) (dot class), s[k] is a space and
the version suffix matches after it. The regex engine takes the greedy
(largest) k, i.e. the last element of this ascending list. -/
def bfSpaceKs (s : List Nat) (j : Nat) : List Nat :=
  (List.range s.length).filter (fun k =>
    decide (j ≤ k) && decide (s.getD k 0 = 32) && dotRun s j k &&
      (bfTailMatch (s.drop (k + 1))).isSome)

/-- Candidate end positions j of group 1 (.*flight)/i starting at i: the
slice [i, j) ends with "flight" case-insensitively, its prefix lies in the dot
class, and the rest of the pattern can match after some space position. The
engine takes the greedy (largest) such j. -/
def bfG1Ends (s : List Nat) (i : Nat) : List Nat :=
  (List.range (s.length + 1)).filter (fun j =>
    decide (i + 6 ≤ j) && decide ((sliceCodes s (j - 6) j).map lowerCode = codes "flight") &&
      dotRun s i (j - 6) && decide (bfSpaceKs s j ≠ []))

/-- Source: the regex match fieldValue.match(/(.*flight).* (\d+)\.(\d+)(\.(\d+))*\/i)
of detectFirmwareVersion, decided by the derived backtracking order of the
ECMAScript engine: leftmost start, then greedy group 1, then greedy middle .*;
returns (group 1, major digits, minor digits, last patch digits). -/
def bfMatch (s : List Nat) :
    Option (List Nat × List Nat × List Nat × Option (List Nat)) :=
  match (List.range (s.length + 1)).find? (fun i => bfG1Ends s i ≠ []) with
  | none => none
  | some i =>
    match (bfG1Ends s i).getLast? with
    | none => none
    | some j =>
      match (bfSpaceKs s j).getLast? with
      | none => none
      | some k =>
        match bfTailMatch (s.drop (k + 1)) with
        | none => none
        | some (d1, d2, g5) => some (sliceCodes s i j, d1, d2, g5)

/-- Suffix condition of the INAV regex (\d+)\.(\d+).(\d+)* after the space: a
digit run, a literal dot, then a digit run of which the engine can give up the
last digit to the unescaped dot when nothing else follows. Only the existence
of a match is consumed. -/
def inavTail (t : List Nat) : Bool :=
  let d1 := t.takeWhile isDigitCode
  let r1 := t.dropWhile isDigitCode
  decide (d1 ≠ []) && decide (r1.headD 0 = 46) &&
    (let d2 := r1.tail.takeWhile isDigitCode
     let r2 := r1.tail.dropWhile isDigitCode
     decide (1 ≤ d2.length) &&
       (decide (2 ≤ d2.length) || (decide (r2 ≠ []) && dotChar (r2.headD 0))))

/-- Source: the existence of a match of fieldValue.match(/(INAV).* (\d+)\.(\d+).(\d+)*\/i)
in detectFirmwareVersion (only match success is consumed on this branch). -/
def inavMatches (s : List Nat) : Bool :=
  (List.range (s.length + 1)).any (fun i =>
    decide ((sliceCodes s i (i + 4)).map lowerCode = codes "inav") &&
      (List.range s.length).any (fun k =>
        decide (i + 4 ≤ k) && decide (s.getD k 0 = 32) && dotRun s (i + 4) k &&
          inavTail (s.drop (k + 1))))

/-- Source: translateLegacyFieldNames (GraphConfig.ts second document): a name
matching /^gyroData(.+)$/ becomes "gyroADC" ++ the captured rest. -/
def translateLegacyFieldNames (names : List (List Nat)) : List (List Nat) :=
  names.map (fun n =>
    if n.take 8 = codes "gyroData" ∧ n.drop 8 ≠ [] ∧ (n.drop 8).all dotChar then
      codes "gyroADC" ++ n.drop 8
    else n)

/-- The anchored match /^Field (.) (.+)$/ on a translated header field name,
returning the frame marker character and the field info string. -/
def fieldHeaderMatch (n : List Nat) : Option (Nat × List Nat) :=
  if n.take 6 = codes "Field " ∧ dotChar (n.getD 6 0) ∧ n.getD 7 0 = 32 ∧
      n.drop 8 ≠ [] ∧ (n.drop 8).all dotChar ∧ 8 ≤ n.length then
    some (n.getD 6 0, n.drop 8)
  else none

/-- Decimal digits of a natural number. -/
def natCodes (n : Nat) : List Nat := codes (toString n)

/-- JS Number.prototype.toFixed(1) of a nonnegative value, as a code list.
Decimal half-up rounding stands in for the rounding of the binary double; the
two differ only for minor-version digit strings too long for any firmware to
emit, and the result is consumed only by the external semver comparison. -/
def jsToFixed1 (q : Rat) : List Nat :=
  let n := (q * 10 + 1 / 2).floor
  natCodes (n / 10).toNat ++ [46] ++ natCodes (n % 10).toNat

/-- Modelled from the spec: the firmware type constants of
configs/FirmwareTypes, a module that is not part of the available source; the
parser and facade only compare these values for identity, so they are an
enumeration here. -/
inductive FirmwareType where
  | UNKNOWN
  | BASEFLIGHT
  | CLEANFLIGHT
  | BETAFLIGHT
  | INAV
deriving DecidableEq, Repr

/-- The slots of the parser's sysConfig object read by the functions under
verification (FlightLogIndex._parseSubLog and the FlightLog facade helpers),
plus the slots whose array-versus-scalar shape decides whether a later header
line throws (motorOutput, rollPID, pitchPID, yawPID). Header lines whose only
assignments fall outside this slice leave it unchanged; every case of the
source switch is still listed at its place in parseHeaderLine. firmwareVersion
is none while the JS slot is still undefined. -/
structure SysConfigSlice where
  firmwareType : FirmwareType
  firmwareVersion : Option (List Nat)
  minthrottle : JsDyn
  maxthrottle : JsDyn
  motorOutput : Sum JsDyn (List JsDyn)
  rollPID : Sum JsDyn (List JsDyn)
  pitchPID : Sum JsDyn (List JsDyn)
  yawPID : Sum JsDyn (List JsDyn)
  vbatscale : JsDyn
  vbatref : JsDyn
  vbatmincellvoltage : JsDyn
  vbatwarningcellvoltage : JsDyn
  vbatmaxcellvoltage : JsDyn
  fields_disabled_mask : JsDyn
deriving DecidableEq, Repr

/-- Source: the slice of defaultSysConfig merged with
defaultSysConfigExtension (GraphConfig.ts second document; the merge itself is
Jq.extend, from the absent utils/Jq module, a jQuery-style shallow object
merge). -/
def defaultSysConfigSlice : SysConfigSlice :=
  { firmwareType := FirmwareType.UNKNOWN
    firmwareVersion := none
    minthrottle := JsDyn.num 1150
    maxthrottle := JsDyn.num 1850
    motorOutput := Sum.inr [JsDyn.nullv, JsDyn.nullv]
    rollPID := Sum.inr [JsDyn.nullv, JsDyn.nullv, JsDyn.nullv]
    pitchPID := Sum.inr [JsDyn.nullv, JsDyn.nullv, JsDyn.nullv]
    yawPID := Sum.inr [JsDyn.nullv, JsDyn.nullv, JsDyn.nullv]
    vbatscale := JsDyn.num 110
    vbatref := JsDyn.num 4095
    vbatmincellvoltage := JsDyn.num 33
    vbatwarningcellvoltage := JsDyn.num 35
    vbatmaxcellvoltage := JsDyn.num 43
    fields_disabled_mask := JsDyn.nullv }

/-- Source: one frame definition object as created by _parseHeaderLine's Field
branch: field names (with count), and the signed/predictor/encoding values
produced by parseCommaSeparatedString. The nameToIndex object is not stored:
it always equals the last-occurrence index map of the name list (see
mapFieldNamesToIndex below), so lookups go through that function. -/
structure FrameDef where
  name : List (List Nat)
  count : Nat
  signed : Sum JsDyn (List JsDyn)
  predictor : Sum JsDyn (List JsDyn)
  encoding : Sum JsDyn (List JsDyn)
deriving DecidableEq, Repr

/-- The fresh frame definition object of _parseHeaderLine. -/
def emptyFrameDef : FrameDef :=
  { name := [], count := 0, signed := Sum.inr [], predictor := Sum.inr [], encoding := Sum.inr [] }

/-- The parser's frameDefs object: an association list keyed by the frame
marker character code. -/
def fdLookup (l : List (Nat × FrameDef)) (k : Nat) : Option FrameDef :=
  (l.find? (fun p => p.1 = k)).map Prod.snd

/-- Update or insert a frameDefs entry. -/
def fdUpdate : List (Nat × FrameDef) → Nat → FrameDef → List (Nat × FrameDef)
  | [], k, fd => [(k, fd)]
  | p :: rest, k, fd => if p.1 = k then (k, fd) :: rest else p :: fdUpdate rest k fd

/-- Source: the fieldNameTranslations table (GraphConfig.ts second
document). -/
def fieldNameTranslations : List (List Nat × List Nat) :=
  [
   (codes "acc_limit_yaw", codes "yawRateAccelLimit"),
   (codes "accel_limit", codes "rateAccelLimit"),
   (codes "acc_limit", codes "rateAccelLimit"),
   (codes "anti_gravity_thresh", codes "anti_gravity_threshold"),
   (codes "currentSensor", codes "currentMeter"),
   (codes "d_notch_cut", codes "dterm_notch_cutoff"),
   (codes "d_setpoint_weight", codes "dtermSetpointWeight"),
   (codes "dterm_lowpass_hz", codes "dterm_lpf_hz"),
   (codes "dterm_lowpass_dyn_hz", codes "dterm_lpf_dyn_hz"),
   (codes "dterm_lowpass2_hz", codes "dterm_lpf2_hz"),
   (codes "dterm_setpoint_weight", codes "dtermSetpointWeight"),
   (codes "digital_idle_value", codes "digitalIdleOffset"),
   (codes "dshot_idle_value", codes "digitalIdleOffset"),
   (codes "gyro_hardware_lpf", codes "gyro_lpf"),
   (codes "gyro_lowpass", codes "gyro_lowpass_hz"),
   (codes "gyro_lowpass_type", codes "gyro_soft_type"),
   (codes "gyro_lowpass2_type", codes "gyro_soft2_type"),
   (codes "gyro.scale", codes "gyro_scale"),
   (codes "iterm_windup", codes "itermWindupPointPercent"),
   (codes "motor_pwm_protocol", codes "fast_pwm_protocol"),
   (codes "pidsum_limit", codes "pidSumLimit"),
   (codes "pidsum_limit_yaw", codes "pidSumLimitYaw"),
   (codes "rc_expo_yaw", codes "rcYawExpo"),
   (codes "rc_interp", codes "rc_interpolation"),
   (codes "rc_interp_int", codes "rc_interpolation_interval"),
   (codes "rc_rate", codes "rc_rates"),
   (codes "rc_rate_yaw", codes "rcYawRate"),
   (codes "rc_yaw_expo", codes "rcYawExpo"),
   (codes "rcExpo", codes "rc_expo"),
   (codes "rcRate", codes "rc_rates"),
   (codes "setpoint_relax_ratio", codes "setpointRelaxRatio"),
   (codes "setpoint_relaxation_ratio", codes "setpointRelaxRatio"),
   (codes "thr_expo", codes "thrExpo"),
   (codes "thr_mid", codes "thrMid"),
   (codes "tpa_rate", codes "dynThrPID"),
   (codes "use_unsynced_pwm", codes "unsynced_fast_pwm"),
   (codes "vbat_scale", codes "vbatscale"),
   (codes "vbat_pid_gain", codes "vbat_pid_compensation"),
   (codes "yaw_accel_limit", codes "yawRateAccelLimit"),
   (codes "yaw_lowpass_hz", codes "yaw_lpf_hz")]

/-- fieldName = fieldNameTranslations[fieldName] ?? fieldName. -/
def translateFieldName (n : List Nat) : List Nat :=
  ((fieldNameTranslations.find? (fun p => p.1 = n)).map Prod.snd).getD n

/-- JS String.prototype.indexOf for a one-character pattern. -/
def jsIndexOfCode (l : List Nat) (c : Nat) : Int :=
  match l.findIdx? (fun x => x = c) with
  | some k => (k : Int)
  | none => -1

/-- The labels of the large parseInt case group of _parseHeaderLine, in
source order; of these only vbatscale, vbatref and fields_disabled_mask are
inside the modelled sysConfig slice. -/
def parseIntGroupLabels : List (List Nat) :=
  [
   codes "rcRate", codes "thrMid", codes "thrExpo",
   codes "dynThrPID", codes "tpa_breakpoint", codes "airmode_activate_throttle",
   codes "serialrx_provider", codes "looptime", codes "gyro_sync_denom",
   codes "pid_process_denom", codes "pidController", codes "yaw_p_limit",
   codes "dterm_average_count", codes "rollPitchItermResetRate", codes "yawItermResetRate",
   codes "rollPitchItermIgnoreRate", codes "yawItermIgnoreRate", codes "dterm_differentiator",
   codes "deltaMethod", codes "dynamic_dterm_threshold", codes "dynamic_pterm",
   codes "iterm_reset_offset", codes "deadband", codes "yaw_deadband",
   codes "gyro_lpf", codes "gyro_hardware_lpf", codes "gyro_32khz_hardware_lpf",
   codes "acc_lpf_hz", codes "acc_hardware", codes "baro_hardware",
   codes "mag_hardware", codes "gyro_cal_on_first_arm", codes "vbat_pid_compensation",
   codes "rc_smoothing", codes "rc_smoothing_auto_factor", codes "rc_smoothing_type",
   codes "rc_smoothing_debug_axis", codes "rc_smoothing_rx_average", codes "superExpoYawMode",
   codes "features", codes "dynamic_pid", codes "rc_interpolation",
   codes "rc_interpolation_channels", codes "rc_interpolation_interval", codes "unsynced_fast_pwm",
   codes "fast_pwm_protocol", codes "motor_pwm_rate", codes "vbatscale",
   codes "vbatref", codes "acc_1G", codes "dterm_filter_type",
   codes "dterm_filter2_type", codes "pidAtMinThrottle", codes "pidSumLimit",
   codes "pidSumLimitYaw", codes "anti_gravity_threshold", codes "itermWindupPointPercent",
   codes "ptermSRateWeight", codes "setpointRelaxRatio", codes "feedforward_transition",
   codes "dtermSetpointWeight", codes "gyro_soft_type", codes "gyro_soft2_type",
   codes "debug_mode", codes "anti_gravity_mode", codes "anti_gravity_gain",
   codes "abs_control_gain", codes "use_integrated_yaw", codes "d_min_gain",
   codes "d_min_advance", codes "dshot_bidir", codes "gyro_rpm_notch_harmonics",
   codes "gyro_rpm_notch_q", codes "gyro_rpm_notch_min", codes "dterm_rpm_notch_harmonics",
   codes "dterm_rpm_notch_q", codes "dterm_rpm_notch_min", codes "iterm_relax",
   codes "iterm_relax_type", codes "iterm_relax_cutoff", codes "dyn_notch_range",
   codes "dyn_notch_width_percent", codes "dyn_notch_q", codes "dyn_notch_min_hz",
   codes "dyn_notch_max_hz", codes "rates_type", codes "vbat_sag_compensation",
   codes "fields_disabled_mask", codes "motor_pwm_protocol"]

/-- The yaw_lpf_hz .. dterm_lpf2_hz case group (all outside the slice; the
semverGte calls inside only choose between two writes to these slots). -/
def lpfGroupLabels : List (List Nat) :=
  [
   codes "yaw_lpf_hz", codes "gyro_lowpass_hz", codes "gyro_lowpass2_hz",
   codes "dterm_notch_hz", codes "dterm_notch_cutoff", codes "dterm_lpf_hz",
   codes "dterm_lpf2_hz"]

/-- The CSV-packed case group rates .. d_min, in source order; of these only
rollPID, pitchPID, yawPID and motorOutput are tracked (their array-versus-
scalar shape is observable through later throwing assignments). -/
def csvGroupLabels : List (List Nat) :=
  [
   codes "rates", codes "rate_limits", codes "rollPID",
   codes "pitchPID", codes "yawPID", codes "altPID",
   codes "posPID", codes "posrPID", codes "navrPID",
   codes "levelPID", codes "velPID", codes "motorOutput",
   codes "rc_smoothing_active_cutoffs", codes "rc_smoothing_cutoffs", codes "rc_smoothing_filter_type",
   codes "gyro_lowpass_dyn_hz", codes "dterm_lpf_dyn_hz", codes "d_min"]

/-- The informational headers stored verbatim into sysConfig (outside the
slice). -/
def infoGroupLabels : List (List Nat) :=
  [
   codes "Product", codes "Blackbox version", codes "Firmware date",
   codes "Board information", codes "Craft name", codes "Log start datetime"]

/-- Source: detectFirmwareVersion (GraphConfig.ts second document). Only the
slice effects are materialised: the firmware type, and the firmwareVersion
string built as parseFloat(major ++ "." ++ minor).toFixed(1) ++ "." ++ patch
on the Betaflight-shaped branch (the separate firmware/firmwarePatch slots and
the raw revision string are outside the slice). The INAV branch only sets the
firmware type; the no-match branch resets firmwareVersion to "0.0.0". -/
def detectFirmwareVersion (cfg : SysConfigSlice) (fieldValue : List Nat) : SysConfigSlice :=
  match bfMatch fieldValue with
  | some (g1, m2, m3, m5) =>
    let cfg1 :=
      if g1 = codes "Betaflight" then { cfg with firmwareType := FirmwareType.BETAFLIGHT }
      else cfg
    let fw := jsToFixed1 ((jsParseFloat (m2 ++ [46] ++ m3)).getD 0)
    let patch := match m5 with
      | some d => natCodes (digitsVal d)
      | none => codes "0"
    { cfg1 with firmwareVersion := some (fw ++ [46] ++ patch) }
  | none =>
    if inavMatches fieldValue then { cfg with firmwareType := FirmwareType.INAV }
    else { cfg with firmwareVersion := some (codes "0.0.0") }

/-- The parser state threaded through the header parse: the stream, the
sysConfig slice and the frameDefs table. -/
structure ParserHeaderState where
  stream : ArrayDataStream
  sysConfig : SysConfigSlice
  frameDefs : List (Nat × FrameDef)
deriving DecidableEq, Repr

/-- Source: FlightLogParser._parseHeaderLine (GraphConfig.ts second document),
switch cases in source order. Cases whose assignments all fall outside the
modelled sysConfig slice return the state unchanged (each such group carries a
comment saying what the source writes there). The thrown TypeError of the
strict-mode property assignments on primitives (motorOutput[0] on a scalar
motorOutput, rollPID.push on a scalar rollPID, signed.length on a scalar
signed) is modelled as the error string "TypeError"; its exact engine message
is not specified by the source, and every claim only relies on the thrown
value being truthy and its string form non-empty. -/
def parseHeaderLine (ps0 : ParserHeaderState) : Except String ParserHeaderState :=
  let r := ps0.stream.readLine
  let line : List Nat := r.1.map Int.toNat
  let ps := { ps0 with stream := r.2 }
  let ci := jsIndexOfCode line 58
  let fieldName := translateFieldName (line.take ci.toNat)
  let fieldValue := line.drop (ci + 1).toNat
  let cfg := ps.sysConfig
  -- "I interval", "P interval": frameIntervalI/PNum/PDenom, outside the slice;
  -- "P denom"/"P ratio": explicit no-ops in the source;
  -- "Data version": this.dataVersion, outside the slice.
  if fieldName = codes "I interval" ∨ fieldName = codes "P interval" ∨
      fieldName = codes "P denom" ∨ fieldName = codes "P ratio" ∨
      fieldName = codes "Data version" then Except.ok ps
  else if fieldName = codes "Firmware type" then
    Except.ok { ps with sysConfig := { cfg with firmwareType :=
      (if fieldValue = codes "Cleanflight" then FirmwareType.CLEANFLIGHT
       else FirmwareType.BASEFLIGHT) } }
  else if fieldName = codes "minthrottle" then
    let v := numOrNaN (jsParseInt10 fieldValue)
    match cfg.motorOutput with
    | Sum.inl _ => Except.error "TypeError"
    | Sum.inr l => Except.ok { ps with sysConfig :=
        { cfg with minthrottle := v, motorOutput := Sum.inr (setExtend l 0 v) } }
  else if fieldName = codes "maxthrottle" then
    let v := numOrNaN (jsParseInt10 fieldValue)
    match cfg.motorOutput with
    | Sum.inl _ => Except.error "TypeError"
    | Sum.inr l => Except.ok { ps with sysConfig :=
        { cfg with maxthrottle := v, motorOutput := Sum.inr (setExtend l 1 v) } }
  else if parseIntGroupLabels.contains fieldName then
    let v := numOrNaN (jsParseInt10 fieldValue)
    Except.ok { ps with sysConfig :=
      (if fieldName = codes "vbatscale" then { cfg with vbatscale := v }
       else if fieldName = codes "vbatref" then { cfg with vbatref := v }
       else if fieldName = codes "fields_disabled_mask" then
         { cfg with fields_disabled_mask := v }
       else cfg) }
  -- rc_expo/rc_rates (and rcYawExpo/rcYawRate below) write rc_expo/rc_rates
  -- slots, outside the slice; both source branches index arrays that are
  -- arrays in every reachable state, so they cannot throw.
  else if fieldName = codes "rc_expo" ∨ fieldName = codes "rc_rates" then Except.ok ps
  else if fieldName = codes "rcYawExpo" then Except.ok ps
  else if fieldName = codes "rcYawRate" then Except.ok ps
  -- yawRateAccelLimit/rateAccelLimit: a semverGte-guarded choice between two
  -- writes to these slots, outside the slice.
  else if fieldName = codes "yawRateAccelLimit" ∨ fieldName = codes "rateAccelLimit" then
    Except.ok ps
  else if lpfGroupLabels.contains fieldName then Except.ok ps
  else if fieldName = codes "gyro_notch_hz" ∨ fieldName = codes "gyro_notch_cutoff" then
    Except.ok ps
  -- digitalIdleOffset falls through (missing break) into the dterm_cut_hz /
  -- acc_cut_hz parseInt; all three slots are outside the slice.
  else if fieldName = codes "digitalIdleOffset" ∨ fieldName = codes "dterm_cut_hz" ∨
      fieldName = codes "acc_cut_hz" then Except.ok ps
  -- superExpoFactor: writes superExpoFactor/superExpoFactorYaw, outside the
  -- slice (reads its parsed values only).
  else if fieldName = codes "superExpoFactor" then Except.ok ps
  else if csvGroupLabels.contains fieldName then
    let v := pcssToDyn (parseCommaSeparatedString fieldValue 0)
    Except.ok { ps with sysConfig :=
      (if fieldName = codes "rollPID" then { cfg with rollPID := v }
       else if fieldName = codes "pitchPID" then { cfg with pitchPID := v }
       else if fieldName = codes "yawPID" then { cfg with yawPID := v }
       else if fieldName = codes "motorOutput" then { cfg with motorOutput := v }
       else cfg) }
  else if fieldName = codes "magPID" then Except.ok ps
  else if fieldName = codes "feedforward_weight" then
    let ff := pcssToDyn (parseCommaSeparatedString fieldValue 0)
    match cfg.rollPID with
    | Sum.inl _ => Except.error "TypeError"
    | Sum.inr rl =>
      match cfg.pitchPID with
      | Sum.inl _ => Except.error "TypeError"
      | Sum.inr pl =>
        match cfg.yawPID with
        | Sum.inl _ => Except.error "TypeError"
        | Sum.inr yl =>
          Except.ok { ps with sysConfig := { cfg with
            rollPID := Sum.inr (rl ++ [dynIdx ff 0])
            pitchPID := Sum.inr (pl ++ [dynIdx ff 1])
            yawPID := Sum.inr (yl ++ [dynIdx ff 2]) } }
  else if fieldName = codes "vbatcellvoltage" then
    let v := pcssToDyn (parseCommaSeparatedString fieldValue 0)
    Except.ok { ps with sysConfig := { cfg with
      vbatmincellvoltage := dynIdx v 0
      vbatwarningcellvoltage := dynIdx v 1
      vbatmaxcellvoltage := dynIdx v 2 } }
  -- currentMeter/currentSensor: currentMeterOffset/Scale, outside the slice.
  else if fieldName = codes "currentMeter" ∨ fieldName = codes "currentSensor" then
    Except.ok ps
  -- gyro.scale/gyro_scale: gyroScale via hexToFloat, outside the slice.
  else if fieldName = codes "gyro.scale" ∨ fieldName = codes "gyro_scale" then Except.ok ps
  else if fieldName = codes "Firmware revision" then
    Except.ok { ps with sysConfig := detectFirmwareVersion cfg fieldValue }
  -- Product .. Log start datetime: stored verbatim, outside the slice.
  else if infoGroupLabels.contains fieldName then Except.ok ps
  else if fieldName = codes "Device UID" then Except.ok ps
  else
    match fieldHeaderMatch fieldName with
    | some fi =>
      let defs1 :=
        if (fdLookup ps.frameDefs fi.1).isNone then fdUpdate ps.frameDefs fi.1 emptyFrameDef
        else ps.frameDefs
      let fd := (fdLookup defs1 fi.1).getD emptyFrameDef
      if fi.2 = codes "predictor" then
        let fd1 := { fd with predictor := pcssToDyn (parseCommaSeparatedString fieldValue 0) }
        Except.ok { ps with frameDefs := fdUpdate defs1 fi.1 fd1 }
      else if fi.2 = codes "encoding" then
        let fd1 := { fd with encoding := pcssToDyn (parseCommaSeparatedString fieldValue 0) }
        Except.ok { ps with frameDefs := fdUpdate defs1 fi.1 fd1 }
      else if fi.2 = codes "name" then
        let names := translateLegacyFieldNames (jsSplitOnComma fieldValue)
        match fd.signed with
        | Sum.inl _ => Except.error "TypeError"
        | Sum.inr sl =>
          let fd1 := { fd with
            name := names
            count := names.length
            signed := Sum.inr (resizeHoles sl names.length) }
          Except.ok { ps with frameDefs := fdUpdate defs1 fi.1 fd1 }
      else if fi.2 = codes "signed" then
        let fd1 := { fd with signed := pcssToDyn (parseCommaSeparatedString fieldValue 0) }
        Except.ok { ps with frameDefs := fdUpdate defs1 fi.1 fd1 }
      else Except.ok { ps with frameDefs := defs1 }  -- unrecognized: console.log only
    | none => Except.ok ps  -- pushed to sysConfig.unknownHeaders, outside the slice

/-- Source: the mainloop of FlightLogParser.parseHeader. Character codes: H is
72, space 32, and the frameTypes table has keys I (73), P (80), S (83), E
(69); the log buffer is a Uint8Array, so no byte can collide with the EOF
value -1. Every iteration that loops again consumes at least one byte, so the
initial fuel (endPos - pos).toNat + 1 can never run out before the loop exits
on its own. -/
def parseHeaderLoop : Nat → ParserHeaderState → Except String ParserHeaderState
  | 0, ps => Except.ok ps
  | fuel + 1, ps =>
    let r := ps.stream.readChar
    if r.1 = 72 then
      let p := r.2.peekChar
      if p.1 ≠ 32 then
        -- "Unexpected header format." warning; break out of the switch only
        parseHeaderLoop fuel { ps with stream := p.2 }
      else
        let r2 := p.2.readChar
        match parseHeaderLine { ps with stream := r2.2 } with
        | Except.error e => Except.error e
        | Except.ok ps1 => parseHeaderLoop fuel ps1
    else if r.1 = -1 then Except.ok { ps with stream := r.2 }
    else if r.1 = 73 ∨ r.1 = 80 ∨ r.1 = 83 ∨ r.1 = 69 then
      Except.ok { ps with stream := r.2.unreadChar }
    else
      parseHeaderLoop fuel { ps with stream := r.2 }

/-- Source: _setStreamRange; ?? keeps the previous position/end when an
offset is not supplied. -/
def setStreamRange (s : ArrayDataStream) (startOpt endOpt : Option Int) : ArrayDataStream :=
  let st := startOpt.getD s.pos
  { s with start := st, pos := st, endPos := endOpt.getD s.endPos, eof := false }

/-- JS .length of a predictor/encoding/signed slot: the element count of an
array, the character count of a scalar string, and undefined (none) on a
scalar number or NaN, where the loose comparison with count is false. -/
def dynLength : Sum JsDyn (List JsDyn) → Option Nat
  | Sum.inr l => some l.length
  | Sum.inl (JsDyn.str s) => some s.length
  | Sum.inl _ => none

/-- Source: _isFrameDefComplete: some fields and matching predictor/encoding
lengths. -/
def isFrameDefComplete (fd : Option FrameDef) : Bool :=
  match fd with
  | none => false
  | some d =>
    0 < d.count && decide (dynLength d.encoding = some d.count) &&
      decide (dynLength d.predictor = some d.count)

/-- Source: FlightLogParser.parseHeader (GraphConfig.ts second document).
_resetAllState resets the stats, the sysConfig (to the defaults) and the
frameDefs, and _setStreamRange overwrites the stream range, so the outcome
depends only on the buffer and the two offsets (parseHeader_deterministic
below). The adjustFieldDefsList call mutates a table owned by the absent
FlightLogFieldDefs module and touches no parser state. The final
mainHistoryRing/lastSlow allocations initialise decode-phase state not
consumed by the header result. -/
def parseHeader (base : ArrayDataStream) (startOpt endOpt : Option Int) :
    Except String ParserHeaderState :=
  let s := setStreamRange base startOpt endOpt
  let st0 : ParserHeaderState :=
    { stream := s, sysConfig := defaultSysConfigSlice, frameDefs := [] }
  match parseHeaderLoop ((s.endPos - s.pos).toNat + 1) st0 with
  | Except.error e => Except.error e
  | Except.ok st =>
    if ¬ isFrameDefComplete (fdLookup st.frameDefs 73) then
      Except.error "Log is missing required definitions for I frames, header may be corrupt"
    else
      match fdLookup st.frameDefs 73, fdLookup st.frameDefs 80 with
      | some idef, some pdef =>
        let pdef1 := { pdef with count := idef.count, name := idef.name, signed := idef.signed }
        if ¬ isFrameDefComplete (some pdef1) then
          Except.error "Log is missing required definitions for P frames, header may be corrupt"
        else Except.ok { st with frameDefs := fdUpdate st.frameDefs 80 pdef1 }
      | _, _ =>
        Except.error "Log is missing required definitions for P frames, header may be corrupt"

theorem toUInt32_natCast {u : Nat} (h : u < 4294967296) : toUInt32 (u : Int) = u := by
  unfold toUInt32
  omega

theorem int32_of_lt {u : Nat} (h : u < 2147483648) : int32 u = (u : Int) := by
  unfold int32
  simp [h]

theorem int32_of_ge {u : Nat} (h : 2147483648 ≤ u) : int32 u = (u : Int) - 4294967296 := by
  unfold int32
  omega

/-- Bitwise OR with a disjoint high part is addition. -/
theorem lor_of_lt {x : Nat} {k : Nat} (h : x < 2 ^ k) (m : Nat) :
    x ||| m * 2 ^ k = m * 2 ^ k + x := by
  calc x ||| m * 2 ^ k = 2 ^ k * m ||| x := by rw [Nat.lor_comm, Nat.mul_comm]
  _ = 2 ^ k * m + x := (Nat.mul_add_lt_is_or h m).symm
  _ = m * 2 ^ k + x := by ring

/-- Extracting the sign bit of a value known to fit in w bits. -/
theorem land_sign_bit {v w : Nat} (hw : 1 ≤ w) (h : v < 2 ^ w) :
    v &&& 2 ^ (w - 1) = (v / 2 ^ (w - 1)) * 2 ^ (w - 1) := by
  rw [Nat.and_two_pow]
  rcases Nat.lt_or_ge v (2 ^ (w - 1)) with hlt | hge
  · have hb : v.testBit (w - 1) = false := Nat.testBit_lt_two_pow hlt
    have : v / 2 ^ (w - 1) = 0 := Nat.div_eq_of_lt hlt
    simp [hb, this]
  · have hdiv : v / 2 ^ (w - 1) = 1 := by
      have h2 : 2 ^ w = 2 ^ (w - 1) * 2 := by
        rw [← Nat.pow_succ]
        congr 1
        omega
      have := Nat.div_lt_of_lt_mul (by omega : v < 2 ^ (w - 1) * 2)
      have := Nat.le_div_iff_mul_le (Nat.two_pow_pos (w - 1)) |>.2 (by omega : 1 * 2 ^ (w - 1) ≤ v)
      omega
    have hb : v.testBit (w - 1) = true := by
      rw [Nat.testBit_to_div_mod, hdiv]
      rfl
    simp [hb, hdiv]

/-- The common shape of all of the signExtend helpers, proved correct in
general: testing the sign bit and OR-ing in the high mask realizes the
two's-complement reading of a w-bit value. -/
theorem signExtend_generic (w : Nat) (hw1 : 1 ≤ w) (hw2 : w ≤ 31) (v : Nat) (hv : v < 2 ^ w) :
    (if jsAnd (v : Int) (((2 ^ (w - 1) : Nat) : Int)) ≠ 0 then
        jsOr (v : Int) (((4294967296 - 2 ^ w : Nat) : Int))
      else (v : Int)) = twosComplement w v := by
  have hvlt : v < 4294967296 := by
    have : (2 : Nat) ^ w ≤ 2 ^ 32 := Nat.pow_le_pow_right (by norm_num) (by omega)
    calc v < 2 ^ w := hv
    _ ≤ 2 ^ 32 := this
    _ = 4294967296 := by norm_num
  have hsb : (2 : Nat) ^ (w - 1) < 4294967296 := by
    have : (2 : Nat) ^ (w - 1) ≤ 2 ^ 30 := Nat.pow_le_pow_right (by norm_num) (by omega)
    calc (2:Nat) ^ (w-1) ≤ 2 ^ 30 := this
    _ < 4294967296 := by norm_num
  have hmask : (4294967296 - 2 ^ w : Nat) < 4294967296 := by
    have := Nat.two_pow_pos w
    omega
  rw [jsAnd, jsOr, toUInt32_natCast hvlt, toUInt32_natCast (by omega),
      toUInt32_natCast (by omega), land_sign_bit hw1 hv]
  rcases Nat.lt_or_ge v (2 ^ (w - 1)) with hlt | hge
  · have h0 : v / 2 ^ (w - 1) = 0 := Nat.div_eq_of_lt hlt
    rw [h0]
    simp [int32, twosComplement, hlt]
  · have h30 : (2:Nat) ^ (w - 1) ≤ 2 ^ 30 := Nat.pow_le_pow_right (by norm_num) (by omega)
    have h1 : v / 2 ^ (w - 1) = 1 := by
      have h2 : 2 ^ w = 2 ^ (w - 1) * 2 := by
        rw [← Nat.pow_succ]
        congr 1
        omega
      have := Nat.div_lt_of_lt_mul (by omega : v < 2 ^ (w - 1) * 2)
      have := Nat.le_div_iff_mul_le (Nat.two_pow_pos (w - 1)) |>.2 (by omega : 1 * 2 ^ (w - 1) ≤ v)
      omega
    rw [h1]
    have hpos : (0:Nat) < 2 ^ (w - 1) := Nat.two_pow_pos _
    have hne : int32 (1 * 2 ^ (w - 1)) ≠ 0 := by
      rw [int32_of_lt (by omega)]
      have : (0:Nat) < 1 * 2 ^ (w - 1) := by omega
      exact_mod_cast this.ne'
    rw [if_pos hne]
    have hdecomp : (4294967296 - 2 ^ w : Nat) = (2 ^ (32 - w) - 1) * 2 ^ w := by
      have hexp : 32 - w + w = 32 := by omega
      have h32 : (4294967296 : Nat) = 2 ^ (32 - w) * 2 ^ w := by
        rw [← Nat.pow_add, hexp]
      rw [Nat.sub_one_mul, ← h32]
    have hor : v ||| (4294967296 - 2 ^ w : Nat) = (4294967296 - 2 ^ w) + v := by
      rw [hdecomp, lor_of_lt hv, ← hdecomp]
    rw [hor]
    have h2w : (2:Nat) ^ w ≤ 2147483648 := by
      have : (2:Nat) ^ w ≤ 2 ^ 31 := Nat.pow_le_pow_right (by norm_num) hw2
      simpa using this
    have hge31 : 2147483648 ≤ 4294967296 - 2 ^ w + v := by omega
    rw [int32_of_ge hge31]
    simp only [twosComplement, if_neg (by omega : ¬ v < 2 ^ (w - 1))]
    have hcast : ((2:Int) ^ w) = (((2 ^ w : Nat)) : Int) := by push_cast; ring
    rw [hcast]
    omega

/-- C2: for every width w in {2,4,5,6,7,8,14,16,24} and every value v with
0 <= v < 2^w, the helper signExtend_w(v) equals the two's-complement
interpretation of the w-bit pattern of v widened to a 32-bit signed
integer. -/
theorem C2_sign_extension (v : Nat) :
    (v < 2 ^ 2 → signExtend2Bit (v : Int) = twosComplement 2 v) ∧
    (v < 2 ^ 4 → signExtend4Bit (v : Int) = twosComplement 4 v) ∧
    (v < 2 ^ 5 → signExtend5Bit (v : Int) = twosComplement 5 v) ∧
    (v < 2 ^ 6 → signExtend6Bit (v : Int) = twosComplement 6 v) ∧
    (v < 2 ^ 7 → signExtend7Bit (v : Int) = twosComplement 7 v) ∧
    (v < 2 ^ 8 → signExtend8Bit (v : Int) = twosComplement 8 v) ∧
    (v < 2 ^ 14 → signExtend14Bit (v : Int) = twosComplement 14 v) ∧
    (v < 2 ^ 16 → signExtend16Bit (v : Int) = twosComplement 16 v) ∧
    (v < 2 ^ 24 → signExtend24Bit (v : Int) = twosComplement 24 v) := by
  refine ⟨?_, ?_, ?_, ?_, ?_, ?_, ?_, ?_, ?_⟩ <;> intro hv
  · have h := signExtend_generic 2 (by norm_num) (by norm_num) v hv
    norm_num at h
    simpa [signExtend2Bit] using h
  · have h := signExtend_generic 4 (by norm_num) (by norm_num) v hv
    norm_num at h
    simpa [signExtend4Bit] using h
  · have h := signExtend_generic 5 (by norm_num) (by norm_num) v hv
    norm_num at h
    simpa [signExtend5Bit] using h
  · have h := signExtend_generic 6 (by norm_num) (by norm_num) v hv
    norm_num at h
    simpa [signExtend6Bit] using h
  · have h := signExtend_generic 7 (by norm_num) (by norm_num) v hv
    norm_num at h
    simpa [signExtend7Bit] using h
  · have h := signExtend_generic 8 (by norm_num) (by norm_num) v hv
    norm_num at h
    simpa [signExtend8Bit] using h
  · have h := signExtend_generic 14 (by norm_num) (by norm_num) v hv
    norm_num at h
    simpa [signExtend14Bit] using h
  · have h := signExtend_generic 16 (by norm_num) (by norm_num) v hv
    norm_num at h
    simpa [signExtend16Bit] using h
  · have h := signExtend_generic 24 (by norm_num) (by norm_num) v hv
    norm_num at h
    simpa [signExtend24Bit] using h

/-- Witness for C2 at concrete inputs. -/
theorem C2_sign_extension_witness :
    (3 < 2 ^ 2 ∧ signExtend2Bit (3 : Int) = twosComplement 2 3) ∧
    (10000 < 2 ^ 14 ∧ signExtend14Bit (10000 : Int) = twosComplement 14 10000) :=
  ⟨⟨by decide, (C2_sign_extension 3).1 (by decide)⟩,
   ⟨by decide, (C2_sign_extension 10000).2.2.2.2.2.2.1 (by decide)⟩⟩

theorem readLineEndAux_bounds (d : List Int) (e : Int) :
    ∀ (fuel : Nat) (p : Int),
      p ≤ readLineEndAux d e p fuel ∧ (p ≤ e → readLineEndAux d e p fuel ≤ e) := by
  intro fuel
  induction fuel with
  | zero => intro p; simp [readLineEndAux]
  | succ n ih =>
    intro p
    rw [readLineEndAux]
    split
    · have := ih (p + 1)
      omega
    · omega

theorem readLineEnd_bounds (d : List Int) (e : Int) (p : Int) :
    p ≤ readLineEnd d e p ∧ (p ≤ e → readLineEnd d e p ≤ e) := by
  unfold readLineEnd
  exact readLineEndAux_bounds d e _ p

theorem inv_readByte {s : ArrayDataStream} (h : StreamInv s) : StreamInv (s.readByte).2 := by
  unfold ArrayDataStream.readByte
  unfold StreamInv at *
  split <;> simp_all <;> omega

theorem inv_readChar {s : ArrayDataStream} (h : StreamInv s) : StreamInv (s.readChar).2 := by
  unfold ArrayDataStream.readChar
  unfold StreamInv at *
  split <;> simp_all <;> omega

theorem inv_peekChar {s : ArrayDataStream} (h : StreamInv s) : StreamInv (s.peekChar).2 := by
  unfold ArrayDataStream.peekChar
  unfold StreamInv at *
  split <;> simp_all

theorem inv_readU8 {s : ArrayDataStream} (h : StreamInv s) : StreamInv (s.readU8).2 :=
  inv_readByte h

theorem inv_readS8 {s : ArrayDataStream} (h : StreamInv s) : StreamInv (s.readS8).2 :=
  inv_readByte h

theorem inv_readLine {s : ArrayDataStream} (h : StreamInv s) : StreamInv (s.readLine).2 := by
  have hb := readLineEnd_bounds s.data s.endPos s.pos
  unfold ArrayDataStream.readLine
  unfold StreamInv at *
  simp only
  omega

theorem inv_readStringAux {n : Nat} : ∀ {s : ArrayDataStream}, StreamInv s →
    StreamInv (readStringAux n s).2 := by
  induction n with
  | zero => intro s h; exact h
  | succ n ih =>
    intro s h
    simp only [readStringAux]
    exact ih (inv_readChar h)

theorem inv_readString {s : ArrayDataStream} (h : StreamInv s) (n : Nat) :
    StreamInv (s.readString n).2 :=
  inv_readStringAux h

theorem inv_readU16 {s : ArrayDataStream} (h : StreamInv s) : StreamInv (s.readU16).2 :=
  inv_readByte (inv_readByte h)

theorem inv_readS16 {s : ArrayDataStream} (h : StreamInv s) : StreamInv (s.readS16).2 :=
  inv_readByte (inv_readByte h)

theorem inv_readU32 {s : ArrayDataStream} (h : StreamInv s) : StreamInv (s.readU32).2 :=
  inv_readByte (inv_readByte (inv_readByte (inv_readByte h)))

theorem inv_readUnsignedVBLoop {fuel : Nat} : ∀ {s : ArrayDataStream} {shift : Nat}
    {result : Int}, StreamInv s → StreamInv (readUnsignedVBLoop fuel s shift result).2 := by
  induction fuel with
  | zero => intro s _ _ h; exact h
  | succ n ih =>
    intro s shift result h
    simp only [readUnsignedVBLoop]
    split
    · exact inv_readByte h
    · split
      · exact inv_readByte h
      · exact ih (inv_readByte h)

theorem inv_readUnsignedVB {s : ArrayDataStream} (h : StreamInv s) :
    StreamInv (s.readUnsignedVB).2 :=
  inv_readUnsignedVBLoop h

theorem inv_readSignedVB {s : ArrayDataStream} (h : StreamInv s) :
    StreamInv (s.readSignedVB).2 :=
  inv_readUnsignedVBLoop h

theorem inv_readTagMixedLoop {fuel : Nat} : ∀ {i : Nat} {lb : Int} {s : ArrayDataStream}
    {v : List Int}, StreamInv s → StreamInv (readTagMixedLoop fuel i lb s v).2 := by
  induction fuel with
  | zero => intro _ _ s _ h; exact h
  | succ n ih =>
    intro i lb s v h
    simp only [readTagMixedLoop]
    split
    · exact ih (inv_readByte h)
    · split
      · exact ih (inv_readByte (inv_readByte h))
      · split
        · exact ih (inv_readByte (inv_readByte (inv_readByte h)))
        · exact ih (inv_readByte (inv_readByte (inv_readByte (inv_readByte h))))

theorem inv_readTag2_3S32 {s : ArrayDataStream} (h : StreamInv s) (v : List Int) :
    StreamInv (s.readTag2_3S32 v).2 := by
  unfold ArrayDataStream.readTag2_3S32
  simp only
  split
  · exact inv_readByte h
  · split
    · exact inv_readByte (inv_readByte h)
    · split
      · exact inv_readByte (inv_readByte (inv_readByte h))
      · split
        · exact inv_readTagMixedLoop (inv_readByte h)
        · exact inv_readByte h

theorem inv_readTag2_3SVariable {s : ArrayDataStream} (h : StreamInv s) (v : List Int) :
    StreamInv (s.readTag2_3SVariable v).2 := by
  unfold ArrayDataStream.readTag2_3SVariable
  simp only
  split
  · exact inv_readByte h
  · split
    · exact inv_readByte (inv_readByte h)
    · split
      · exact inv_readByte (inv_readByte (inv_readByte h))
      · split
        · exact inv_readTagMixedLoop (inv_readByte h)
        · exact inv_readByte h

theorem inv_readTag8_4S16_v1Loop {fuel : Nat} : ∀ {i : Nat} {sel : Int}
    {s : ArrayDataStream} {v : List Int}, StreamInv s →
    StreamInv (readTag8_4S16_v1Loop fuel i sel s v).2 := by
  induction fuel with
  | zero => intro _ _ s _ h; exact h
  | succ n ih =>
    intro i sel s v h
    simp only [readTag8_4S16_v1Loop]
    split
    · split
      · exact ih h
      · split
        · exact ih (inv_readByte h)
        · split
          · exact ih (inv_readByte h)
          · exact ih (inv_readByte (inv_readByte h))
    · exact h

theorem inv_readTag8_4S16_v1 {s : ArrayDataStream} (h : StreamInv s) (v : List Int) :
    StreamInv (s.readTag8_4S16_v1 v).2 :=
  inv_readTag8_4S16_v1Loop (inv_readByte h)

theorem inv_readTag8_4S16_v2Loop {fuel : Nat} : ∀ {i : Nat} {sel nib buf : Int}
    {s : ArrayDataStream} {v : List Int}, StreamInv s →
    StreamInv (readTag8_4S16_v2Loop fuel i sel nib buf s v).2 := by
  induction fuel with
  | zero => intro _ _ _ _ s _ h; exact h
  | succ n ih =>
    intro i sel nib buf s v h
    simp only [readTag8_4S16_v2Loop]
    split
    · exact ih h
    · split
      · split
        · exact ih (inv_readByte h)
        · exact ih h
      · split
        · split
          · exact ih (inv_readByte h)
          · exact ih (inv_readByte h)
        · split
          · exact ih (inv_readByte (inv_readByte h))
          · exact ih (inv_readByte (inv_readByte h))

theorem inv_readTag8_4S16_v2 {s : ArrayDataStream} (h : StreamInv s) (v : List Int) :
    StreamInv (s.readTag8_4S16_v2 v).2 :=
  inv_readTag8_4S16_v2Loop (inv_readByte h)

theorem inv_readTag8_8SVBLoop {fuel : Nat} : ∀ {i : Nat} {header : Int}
    {s : ArrayDataStream} {v : List Int}, StreamInv s →
    StreamInv (readTag8_8SVBLoop fuel i header s v).2 := by
  induction fuel with
  | zero => intro _ _ s _ h; exact h
  | succ n ih =>
    intro i header s v h
    simp only [readTag8_8SVBLoop]
    split
    · exact ih (inv_readSignedVB h)
    · exact ih h

theorem inv_readTag8_8SVB {s : ArrayDataStream} (h : StreamInv s) (v : List Int) (n : Nat) :
    StreamInv (s.readTag8_8SVB v n).2 := by
  unfold ArrayDataStream.readTag8_8SVB
  simp only
  split
  · exact inv_readSignedVB h
  · exact inv_readTag8_8SVBLoop (inv_readByte h)

theorem nextOffsetAuxF_range {d needle : List Int} {e : Int} : ∀ (fuel : Nat) (i : Int),
    nextOffsetAuxF d needle e i fuel ≠ -1 →
    i ≤ nextOffsetAuxF d needle e i fuel ∧
    nextOffsetAuxF d needle e i fuel ≤ e - needle.length := by
  intro fuel
  induction fuel with
  | zero =>
    intro i hne
    exact absurd rfl hne
  | succ n ih =>
    intro i hne
    rw [nextOffsetAuxF] at hne ⊢
    by_cases hc : i ≤ e - needle.length
    · rw [if_pos hc] at hne ⊢
      by_cases hm : dataGet d i = needle.getD 0 0 ∧ nextOffsetInner d needle i 1 = needle.length
      · rw [if_pos hm]
        omega
      · rw [if_neg hm] at hne ⊢
        have := ih (i + 1) hne
        omega
    · rw [if_neg hc] at hne
      exact absurd rfl hne

theorem nextOffsetAux_range {d needle : List Int} {e : Int} : ∀ {i : Int},
    nextOffsetAux d needle e i ≠ -1 →
    i ≤ nextOffsetAux d needle e i ∧ nextOffsetAux d needle e i ≤ e - needle.length := by
  intro i
  exact nextOffsetAuxF_range _ i

theorem allIndicesAux_pos (d marker : List Int) (e : Int) : ∀ (fuel : Nat) (pos : Int),
    pos ≤ (allIndicesAux d marker e pos fuel).2 ∧
    (pos ≤ e → (allIndicesAux d marker e pos fuel).2 ≤ e) := by
  intro fuel
  induction fuel with
  | zero =>
    intro pos
    simp [allIndicesAux]
  | succ n ih =>
    intro pos
    simp only [allIndicesAux]
    by_cases hidx : nextOffsetAux d marker e pos = -1
    · rw [if_pos hidx]
      simp
    · rw [if_neg hidx]
      have hr := nextOffsetAux_range hidx
      have hrec := ih (nextOffsetAux d marker e pos + marker.length)
      simp only at hrec ⊢
      have hlen : (0:Int) ≤ (marker.length : Int) := by positivity
      constructor
      · omega
      · intro hpe
        omega

theorem inv_unreadChar {s : ArrayDataStream} (h : StreamInv s) (hp : s.start < s.pos) :
    StreamInv s.unreadChar := by
  unfold ArrayDataStream.unreadChar
  unfold StreamInv at *
  simp only
  omega

theorem inv_allIndicesOf {s : ArrayDataStream} (h : StreamInv s) (m : List Int) :
    StreamInv (s.allIndicesOf m).2 := by
  unfold ArrayDataStream.allIndicesOf
  have hb := allIndicesAux_pos s.data m s.endPos ((s.endPos - s.pos).toNat + 1) s.pos
  unfold StreamInv at *
  simp only at hb ⊢
  omega

/-- C4 (amended): the bounds invariant start <= pos <= end <= len(data) holds
for a stream constructed from a buffer and is preserved by every stream
operation except unreadChar; unreadChar preserves it exactly when pos > start,
because the source decrements pos unconditionally. nextOffsetOf does not
change the stream at all (it is a pure function in this embedding). -/
theorem C4_bounds_invariant :
    (∀ data : List Int, StreamInv (mkStream data)) ∧
    (∀ s : ArrayDataStream, StreamInv s →
      StreamInv (s.readByte).2 ∧ StreamInv (s.readChar).2 ∧ StreamInv (s.readU8).2 ∧
      StreamInv (s.readS8).2 ∧ StreamInv (s.peekChar).2 ∧ StreamInv (s.readLine).2 ∧
      (∀ n, StreamInv (s.readString n).2) ∧ StreamInv (s.readU16).2 ∧
      StreamInv (s.readU32).2 ∧ StreamInv (s.readS16).2 ∧
      StreamInv (s.readUnsignedVB).2 ∧ StreamInv (s.readSignedVB).2 ∧
      (∀ v, StreamInv (s.readTag2_3S32 v).2 ∧ StreamInv (s.readTag2_3SVariable v).2 ∧
        StreamInv (s.readTag8_4S16_v1 v).2 ∧ StreamInv (s.readTag8_4S16_v2 v).2 ∧
        ∀ n, StreamInv (s.readTag8_8SVB v n).2) ∧
      (∀ m, StreamInv (s.allIndicesOf m).2) ∧
      (s.start < s.pos → StreamInv s.unreadChar)) := by
  constructor
  · intro data
    unfold mkStream ArrayDataStream.construct StreamInv
    simp
  · intro s h
    refine ⟨inv_readByte h, inv_readChar h, inv_readU8 h, inv_readS8 h, inv_peekChar h,
      inv_readLine h, fun n => inv_readString h n, inv_readU16 h, inv_readU32 h,
      inv_readS16 h, inv_readUnsignedVB h, inv_readSignedVB h,
      fun v => ⟨inv_readTag2_3S32 h v, inv_readTag2_3SVariable h v,
        inv_readTag8_4S16_v1 h v, inv_readTag8_4S16_v2 h v,
        fun n => inv_readTag8_8SVB h v n⟩,
      fun m => inv_allIndicesOf h m, fun hp => inv_unreadChar h hp⟩

/-- C4 counterexample to the claim as stated: unreadChar on a freshly
constructed stream pushes pos below start, violating the invariant. -/
theorem C4_counterexample :
    StreamInv (mkStream [5, 6, 7]) ∧
    ¬ StreamInv (ArrayDataStream.unreadChar (mkStream [5, 6, 7])) := by
  constructor
  · unfold mkStream ArrayDataStream.construct StreamInv
    simp
  · unfold mkStream ArrayDataStream.construct ArrayDataStream.unreadChar StreamInv
    simp

/-- Witness for C4 at a concrete stream. -/
theorem C4_bounds_invariant_witness :
    StreamInv (mkStream [1, 2]) ∧ StreamInv ((mkStream [1, 2]).readByte).2 :=
  ⟨C4_bounds_invariant.1 [1, 2],
   (C4_bounds_invariant.2 (mkStream [1, 2]) (C4_bounds_invariant.1 [1, 2])).1⟩

theorem toUInt32_int32 {u : Nat} (h : u < 4294967296) : toUInt32 (int32 u) = u := by
  unfold toUInt32 int32
  split <;> omega

theorem xor_ones {a k : Nat} (h : a < 2 ^ k) : a ^^^ (2 ^ k - 1) = 2 ^ k - 1 - a := by
  apply Nat.eq_of_testBit_eq
  intro i
  rw [Nat.testBit_xor, Nat.testBit_two_pow_sub_one]
  have h2 : 2 ^ k - 1 - a = 2 ^ k - (a + 1) := by omega
  rw [h2, Nat.testBit_two_pow_sub_succ h]
  by_cases hik : i < k
  · simp [hik]
  · have hai : a < 2 ^ i := by
      calc a < 2 ^ k := h
      _ ≤ 2 ^ i := Nat.pow_le_pow_right (by norm_num) (by omega)
    simp [hik, Nat.testBit_lt_two_pow hai]

/-- Bitwise AND of a byte with the JS value of ~0x80 (that is, with the
32-bit mask 0xFFFFFF7F) clears the continuation bit. -/
theorem land_mask7F {b : Nat} (h : b < 256) : b &&& 4294967167 = b % 128 := by
  apply Nat.eq_of_testBit_eq
  intro i
  have hmask : (4294967167 : Nat) = 2 ^ 32 - (128 + 1) := by norm_num
  have h128 : (128 : Nat) = 2 ^ 7 := by norm_num
  rw [Nat.testBit_land, hmask, Nat.testBit_two_pow_sub_succ (by norm_num), h128,
    Nat.testBit_mod_two_pow, Nat.testBit_two_pow]
  by_cases h7 : i < 7
  · have h32 : i < 32 := by omega
    have hne7 : ¬ 7 = i := by omega
    simp [h7, h32, hne7]
  · by_cases hi7 : i = 7
    · simp [hi7]
    · have hbi : b.testBit i = false := by
        apply Nat.testBit_lt_two_pow
        calc b < 256 := h
        _ = 2 ^ 8 := by norm_num
        _ ≤ 2 ^ i := Nat.pow_le_pow_right (by norm_num) (by omega)
      simp [h7, hbi]

theorem jsAnd_mask {b : Nat} (h : b < 256) : jsAnd (b : Int) (-129) = ((b % 128 : Nat) : Int) := by
  unfold jsAnd
  rw [toUInt32_natCast (by omega)]
  have ht : toUInt32 (-129) = 4294967167 := by decide
  rw [ht, land_mask7F h, int32_of_lt (by omega)]

theorem jsShl_small {x n : Nat} (hn : n < 32) (h : x * 2 ^ n < 4294967296) :
    jsShl (x : Int) n = int32 (x * 2 ^ n) := by
  unfold jsShl
  have hx : x < 4294967296 := by
    have h1 : (0:Nat) < 2 ^ n := Nat.two_pow_pos n
    calc x = x * 1 := by ring
    _ ≤ x * 2 ^ n := by exact Nat.mul_le_mul_left x h1
    _ < 4294967296 := h
  rw [toUInt32_natCast hx, Nat.mod_eq_of_lt hn, Nat.mod_eq_of_lt h]

theorem jsOr_int32 {x y : Nat} (hx : x < 4294967296) (hy : y < 4294967296) :
    jsOr (int32 x) (int32 y) = int32 (x ||| y) := by
  unfold jsOr
  rw [toUInt32_int32 hx, toUInt32_int32 hy]

theorem jsShrU_int32_zero {x : Nat} (h : x < 4294967296) : jsShrU (int32 x) 0 = (x : Int) := by
  unfold jsShrU
  rw [toUInt32_int32 h]
  simp

theorem encodeVB_ne_nil (u : Nat) : encodeVB u ≠ [] := by
  rw [encodeVB]
  split <;> simp

theorem encodeVB_length_pos (u : Nat) : 1 ≤ (encodeVB u).length :=
  List.length_pos.2 (encodeVB_ne_nil u)

theorem encodeVB_length {k : Nat} : ∀ {u : Nat}, 1 ≤ k → u < 2 ^ (7 * k) →
    (encodeVB u).length ≤ k := by
  induction k with
  | zero => intro u h; omega
  | succ n ih =>
    intro u _ hu
    rw [encodeVB]
    split
    · simp
    · rename_i hbig
      simp only [List.length_cons]
      have hn1 : 1 ≤ n := by
        by_contra hc
        have h0 : n = 0 := by omega
        subst h0
        have : u < 128 := by simpa using hu
        omega
      have hdiv : u / 128 < 2 ^ (7 * n) := by
        have h7 : (2:Nat) ^ (7 * (n + 1)) = 2 ^ (7 * n) * 128 := by
          rw [show 7 * (n + 1) = 7 * n + 7 by ring, Nat.pow_add]
        rw [h7] at hu
        omega
      have := ih hn1 hdiv
      omega

theorem acc_plus_fit {acc u shift : Nat} (hacc : acc < 2 ^ shift) (hshift : shift < 32)
    (hfit : u * 2 ^ shift < 4294967296) : acc + u * 2 ^ shift < 4294967296 := by
  have h32 : (4294967296 : Nat) = 2 ^ (32 - shift) * 2 ^ shift := by
    have hss : 32 - shift + shift = 32 := by omega
    rw [← Nat.pow_add, hss]
  rw [h32] at hfit ⊢
  have hu : u < 2 ^ (32 - shift) := by
    by_contra hc
    push_neg at hc
    have := Nat.mul_le_mul_right (2 ^ shift) hc
    omega
  have : u + 1 ≤ 2 ^ (32 - shift) := hu
  have := Nat.mul_le_mul_right (2 ^ shift) this
  have hx : (u + 1) * 2 ^ shift = u * 2 ^ shift + 2 ^ shift := by ring
  omega

theorem readVBLoop_encode : ∀ (fuel : Nat) (u : Nat) (shift : Nat) (acc : Nat)
    (s : ArrayDataStream),
    (encodeVB u).length ≤ fuel →
    u * 2 ^ shift < 4294967296 →
    acc < 2 ^ shift →
    shift < 32 →
    0 ≤ s.pos →
    s.pos + (encodeVB u).length ≤ s.endPos →
    s.endPos ≤ (s.data.length : Int) →
    (∀ j : Nat, j < (encodeVB u).length → dataGet s.data (s.pos + j) = (encodeVB u).getD j 0) →
    readUnsignedVBLoop fuel s shift (int32 acc) =
      (((acc + u * 2 ^ shift : Nat) : Int), { s with pos := s.pos + (encodeVB u).length }) := by
  intro fuel
  induction fuel with
  | zero =>
    intro u shift acc s hlen _ _ _ _ _ _ _
    exfalso
    have := encodeVB_length_pos u
    omega
  | succ n ih =>
    intro u shift acc s hlen hfit hacc hshift hpos hend hende hbytes
    have hlp := encodeVB_length_pos u
    have hlt : s.pos < s.endPos := by
      have : ((encodeVB u).length : Int) ≥ 1 := by exact_mod_cast hlp
      omega
    have hrb : s.readByte = (dataGet s.data s.pos, { s with pos := s.pos + 1 }) := by
      unfold ArrayDataStream.readByte
      rw [if_pos hlt]
    have hb0 : dataGet s.data s.pos = (encodeVB u).getD 0 0 := by
      have := hbytes 0 hlp
      simpa using this
    have hshle : (2:Nat) ^ shift ≤ 2 ^ 32 := Nat.pow_le_pow_right (by norm_num) (by omega)
    by_cases hu : u < 128
    · have henc : encodeVB u = [(u : Int)] := by
        rw [encodeVB, if_pos hu]
      have hbu : dataGet s.data s.pos = (u : Int) := by
        rw [hb0, henc]
        rfl
      have hne : ((u : Nat) : Int) ≠ -1 := by omega
      have hlt128 : ((u : Nat) : Int) < 128 := by exact_mod_cast hu
      simp only [readUnsignedVBLoop, hrb, hbu]
      rw [if_neg hne, if_pos hlt128]
      rw [jsAnd_mask (by omega : u < 256)]
      rw [Nat.mod_eq_of_lt hu]
      rw [jsShl_small hshift hfit, jsOr_int32 (by omega) hfit, lor_of_lt hacc]
      have hfin : u * 2 ^ shift + acc < 4294967296 := by
        have := acc_plus_fit hacc hshift hfit
        omega
      rw [jsShrU_int32_zero hfin]
      rw [henc]
      simp only [Prod.mk.injEq]
      constructor
      · congr 1
        omega
      · simp
    · have henc : encodeVB u = ((u % 128 + 128 : Nat) : Int) :: encodeVB (u / 128) := by
        rw [encodeVB, if_neg hu]
      have hbu : dataGet s.data s.pos = ((u % 128 + 128 : Nat) : Int) := by
        rw [hb0, henc]
        rfl
      have hne : ((u % 128 + 128 : Nat) : Int) ≠ -1 := by omega
      have hge128 : ¬ ((u % 128 + 128 : Nat) : Int) < 128 := by
        have : (128 : Int) ≤ ((u % 128 + 128 : Nat) : Int) := by exact_mod_cast Nat.le_add_left 128 (u % 128)
        omega
      simp only [readUnsignedVBLoop, hrb, hbu]
      rw [if_neg hne, if_neg hge128]
      rw [jsAnd_mask (by omega : u % 128 + 128 < 256)]
      have hmm : (u % 128 + 128) % 128 = u % 128 := by omega
      rw [hmm]
      have hple : (u % 128) * 2 ^ shift ≤ u * 2 ^ shift :=
        Nat.mul_le_mul_right _ (Nat.mod_le u 128)
      rw [jsShl_small hshift (by omega), jsOr_int32 (by omega) (by omega), lor_of_lt hacc]
      have hp7 : (2:Nat) ^ (shift + 7) = 128 * 2 ^ shift := by
        rw [Nat.pow_add]
        ring
      have hdivle : (u / 128) * 2 ^ (shift + 7) ≤ u * 2 ^ shift := by
        rw [hp7, show u / 128 * (128 * 2 ^ shift) = u / 128 * 128 * 2 ^ shift by ring]
        exact Nat.mul_le_mul_right _ (Nat.div_mul_le_self u 128)
      have hfit' : (u / 128) * 2 ^ (shift + 7) < 4294967296 := by omega
      have h127 : (u % 128) * 2 ^ shift ≤ 127 * 2 ^ shift :=
        Nat.mul_le_mul_right _ (by omega)
      have hacc' : u % 128 * 2 ^ shift + acc < 2 ^ (shift + 7) := by
        rw [hp7]
        omega
      have hdivpos : 1 ≤ u / 128 := (Nat.one_le_div_iff (by norm_num)).2 (by omega)
      have hshift' : shift + 7 < 32 := by
        have h1 : (2:Nat) ^ (shift + 7) ≤ (u / 128) * 2 ^ (shift + 7) := by
          calc (2:Nat) ^ (shift + 7) = 1 * 2 ^ (shift + 7) := by ring
          _ ≤ (u / 128) * 2 ^ (shift + 7) := Nat.mul_le_mul_right _ hdivpos
        have h2 : (2:Nat) ^ (shift + 7) < 2 ^ 32 := by
          calc (2:Nat) ^ (shift + 7) ≤ (u / 128) * 2 ^ (shift + 7) := h1
          _ < 4294967296 := hfit'
          _ = 2 ^ 32 := by norm_num
        exact (Nat.pow_lt_pow_iff_right (by norm_num)).1 h2
      have hlen' : (encodeVB (u / 128)).length ≤ n := by
        have : (encodeVB u).length = 1 + (encodeVB (u / 128)).length := by
          rw [henc]
          simp
          omega
        omega
      have hlencast : ((encodeVB u).length : Int) = 1 + ((encodeVB (u / 128)).length : Int) := by
        rw [henc]
        push_cast
        simp
        omega
      have hbytes' : ∀ j : Nat, j < (encodeVB (u / 128)).length →
          dataGet s.data (s.pos + 1 + j) = (encodeVB (u / 128)).getD j 0 := by
        intro j hj
        have hj1 : j + 1 < (encodeVB u).length := by
          rw [henc]
          simpa using Nat.succ_lt_succ hj
        have := hbytes (j + 1) hj1
        rw [henc] at this
        simp only [List.getD_cons_succ] at this
        rw [show s.pos + 1 + (j : Int) = s.pos + ((j : Nat) + 1 : Nat) by push_cast; ring]
        exact this
      have hrec := ih (u / 128) (shift + 7) (u % 128 * 2 ^ shift + acc)
        { s with pos := s.pos + 1 } hlen' hfit' hacc' hshift'
        (by simp; omega) (by simp; omega) (by simp; omega) hbytes'
      rw [hrec]
      simp only [Prod.mk.injEq]
      constructor
      · congr 1
        have hkey : u % 128 * 2 ^ shift + (u / 128) * 2 ^ (shift + 7) = u * 2 ^ shift := by
          rw [hp7, show u % 128 * 2 ^ shift + u / 128 * (128 * 2 ^ shift) =
            (u % 128 + u / 128 * 128) * 2 ^ shift by ring, Nat.mod_add_div']
        omega
      · simp
        omega

theorem jsAnd_one {u : Nat} (h : u < 4294967296) : jsAnd (u : Int) 1 = ((u % 2 : Nat) : Int) := by
  unfold jsAnd
  rw [toUInt32_natCast h, show toUInt32 1 = 1 from by decide, Nat.and_one_is_mod,
    int32_of_lt (by omega)]

theorem jsShrU_one {u : Nat} (h : u < 4294967296) : jsShrU (u : Int) 1 = ((u / 2 : Nat) : Int) := by
  unfold jsShrU
  rw [toUInt32_natCast h]
  norm_num

theorem readUnsignedVB_encodeVB {u : Nat} (hu : u < 4294967296) :
    (mkStream (encodeVB u)).readUnsignedVB =
      ((u : Int), { mkStream (encodeVB u) with pos := ((encodeVB u).length : Int) }) := by
  have hlen : (encodeVB u).length ≤ 5 :=
    encodeVB_length (by norm_num) (show u < 2 ^ (7 * 5) by norm_num; omega)
  have hmk : (mkStream (encodeVB u)).pos = 0 := rfl
  have hmke : (mkStream (encodeVB u)).endPos = ((encodeVB u).length : Int) := rfl
  have hmkd : (mkStream (encodeVB u)).data = encodeVB u := rfl
  have hrw := readVBLoop_encode 5 u 0 0 (mkStream (encodeVB u)) hlen
    (by simpa using hu) (by norm_num) (by norm_num)
    (by rw [hmk]) (by rw [hmk, hmke]; simp) (by rw [hmke, hmkd])
    (by
      intro j hj
      rw [hmk, hmkd]
      unfold dataGet
      rw [if_pos ⟨by positivity, by push_cast; simpa using hj⟩]
      simp)
  rw [show int32 0 = (0 : Int) from by decide] at hrw
  unfold ArrayDataStream.readUnsignedVB
  rw [hrw, hmk]
  simp

/-- C1: decoding with readUnsignedVB the byte sequence produced by the
reference variable-byte encoder (7 data bits per byte, continuation bit 0x80,
at most 5 bytes) yields the encoded u for every u < 2^32; and readSignedVB
applied to the ZigZag encoding of any signed 32-bit s yields s. -/
theorem C1_vb_round_trip :
    (∀ u : Nat, u < 4294967296 →
      (encodeVB u).length ≤ 5 ∧
      ((mkStream (encodeVB u)).readUnsignedVB).1 = (u : Int)) ∧
    (∀ z : Int, -2147483648 ≤ z → z < 2147483648 →
      ((mkStream (encodeVB (encodeZigZag z))).readSignedVB).1 = z) := by
  constructor
  · intro u hu
    refine ⟨encodeVB_length (by norm_num) (show u < 2 ^ (7 * 5) by norm_num; omega), ?_⟩
    rw [readUnsignedVB_encodeVB hu]
  · intro z hz1 hz2
    have hu32 : encodeZigZag z < 4294967296 := by
      unfold encodeZigZag
      split <;> omega
    unfold ArrayDataStream.readSignedVB
    rw [readUnsignedVB_encodeVB hu32]
    simp only
    rw [jsAnd_one hu32, jsShrU_one hu32]
    set u := encodeZigZag z with hudef
    by_cases hpar : u % 2 = 0
    · have hzpos : 0 ≤ z ∧ u = (2 * z).toNat := by
        rw [hudef]
        unfold encodeZigZag
        split
        · exact ⟨by assumption, rfl⟩
        · exfalso
          rw [hudef] at hpar
          unfold encodeZigZag at hpar
          rw [if_neg (by omega)] at hpar
          omega
      rw [hpar]
      unfold jsXor
      rw [toUInt32_natCast (by omega)]
      have ht0 : toUInt32 (-((0 : Nat) : Int)) = 0 := by decide
      rw [ht0]
      simp only [Nat.xor_zero]
      rw [int32_of_lt (by omega)]
      omega
    · have hzneg : z < 0 ∧ u = (-2 * z - 1).toNat := by
        rw [hudef]
        unfold encodeZigZag
        split
        · exfalso
          rw [hudef] at hpar
          unfold encodeZigZag at hpar
          rw [if_pos (by assumption)] at hpar
          omega
        · exact ⟨by omega, rfl⟩
      have hpar1 : u % 2 = 1 := by omega
      rw [hpar1]
      unfold jsXor
      rw [toUInt32_natCast (by omega)]
      have ht1 : toUInt32 (-((1 : Nat) : Int)) = 4294967295 := by decide
      rw [ht1]
      have hones : (4294967295 : Nat) = 2 ^ 32 - 1 := by norm_num
      rw [hones, xor_ones (by omega : u / 2 < 2 ^ 32)]
      rw [int32_of_ge (by omega)]
      omega

/-- Witness for C1 at u = 300 and s = -5. -/
theorem C1_vb_round_trip_witness :
    (300 < 4294967296 ∧ ((mkStream (encodeVB 300)).readUnsignedVB).1 = (300 : Int)) ∧
    ((mkStream (encodeVB (encodeZigZag (-5)))).readSignedVB).1 = (-5 : Int) :=
  ⟨⟨by decide, (C1_vb_round_trip.1 300 (by decide)).2⟩,
   C1_vb_round_trip.2 (-5) (by decide) (by decide)⟩

theorem readVBLoop_allCont : ∀ (fuel : Nat) (s : ArrayDataStream) (shift : Nat) (result : Int),
    0 ≤ s.pos → s.pos + fuel ≤ s.endPos →
    (∀ j : Nat, j < fuel → 128 ≤ dataGet s.data (s.pos + j)) →
    readUnsignedVBLoop fuel s shift result = (0, { s with pos := s.pos + fuel }) := by
  intro fuel
  induction fuel with
  | zero =>
    intro s shift result _ _ _
    simp [readUnsignedVBLoop]
  | succ n ih =>
    intro s shift result hpos hend hbytes
    have hlt : s.pos < s.endPos := by
      have : ((n : Int) + 1) ≤ s.endPos - s.pos := by push_cast at hend ⊢; omega
      omega
    have hrb : s.readByte = (dataGet s.data s.pos, { s with pos := s.pos + 1 }) := by
      unfold ArrayDataStream.readByte
      rw [if_pos hlt]
    have hb : 128 ≤ dataGet s.data s.pos := by simpa using hbytes 0 (by omega)
    simp only [readUnsignedVBLoop, hrb]
    rw [if_neg (by omega), if_neg (by omega)]
    have hrec := ih { s with pos := s.pos + 1 } (shift + 7)
      (jsOr result (jsShl (jsAnd (dataGet s.data s.pos) (-129)) shift))
      (by simp; omega) (by simp; push_cast at hend ⊢; omega)
      (by
        intro j hj
        simp only
        rw [show s.pos + 1 + (j : Int) = s.pos + ((j : Nat) + 1 : Nat) by push_cast; ring]
        exact hbytes (j + 1) (by omega))
    rw [hrec]
    simp only [Prod.mk.injEq]
    refine ⟨trivial, ?_⟩
    simp
    push_cast
    ring

theorem readVBLoop_eof : ∀ (fuel : Nat) (s : ArrayDataStream) (shift : Nat) (result : Int),
    0 ≤ s.pos → s.pos ≤ s.endPos → s.endPos - s.pos < fuel →
    (∀ j : Nat, (j : Int) < s.endPos - s.pos → 128 ≤ dataGet s.data (s.pos + j)) →
    readUnsignedVBLoop fuel s shift result = (0, { s with pos := s.endPos, eof := true }) := by
  intro fuel
  induction fuel with
  | zero =>
    intro s shift result _ hle hfu _
    omega
  | succ n ih =>
    intro s shift result hpos hle hfu hbytes
    by_cases hpe : s.pos < s.endPos
    · have hrb : s.readByte = (dataGet s.data s.pos, { s with pos := s.pos + 1 }) := by
        unfold ArrayDataStream.readByte
        rw [if_pos hpe]
      have hb : 128 ≤ dataGet s.data s.pos := by
        have := hbytes 0 (by simpa using hpe)
        simpa using this
      simp only [readUnsignedVBLoop, hrb]
      rw [if_neg (by omega), if_neg (by omega)]
      have hrec := ih { s with pos := s.pos + 1 } (shift + 7)
        (jsOr result (jsShl (jsAnd (dataGet s.data s.pos) (-129)) shift))
        (by simp; omega) (by simp; omega) (by simp; omega)
        (by
          intro j hj
          simp only at hj ⊢
          rw [show s.pos + 1 + (j : Int) = s.pos + ((j : Nat) + 1 : Nat) by push_cast; ring]
          exact hbytes (j + 1) (by push_cast; omega))
      rw [hrec]
    · have heq : s.pos = s.endPos := by omega
      have hrb : s.readByte = (-1, { s with eof := true }) := by
        unfold ArrayDataStream.readByte
        rw [if_neg hpe]
      simp only [readUnsignedVBLoop, hrb]
      rw [if_pos trivial]
      simp only [Prod.mk.injEq]
      refine ⟨trivial, ?_⟩
      rw [← heq]

/-- C3: on a stream whose remaining bytes all carry the continuation bit,
readUnsignedVB returns 0: if fewer than 5 such bytes remain it runs into
end-of-data (advancing to the end and setting eof), and if the next 5 bytes
all carry the continuation bit it returns 0 with the position advanced by
exactly 5 bytes. -/
theorem C3_malformed_vb (s : ArrayDataStream) (h0 : 0 ≤ s.pos) (h1 : s.pos ≤ s.endPos) :
    ((s.endPos - s.pos < 5 ∧ ∀ j : Nat, (j : Int) < s.endPos - s.pos →
        128 ≤ dataGet s.data (s.pos + j) ∧ dataGet s.data (s.pos + j) < 256) →
      s.readUnsignedVB = (0, { s with pos := s.endPos, eof := true })) ∧
    ((s.pos + 5 ≤ s.endPos ∧ ∀ j : Nat, j < 5 →
        128 ≤ dataGet s.data (s.pos + j) ∧ dataGet s.data (s.pos + j) < 256) →
      s.readUnsignedVB = (0, { s with pos := s.pos + 5 })) := by
  constructor
  · intro ⟨hlt5, hbytes⟩
    unfold ArrayDataStream.readUnsignedVB
    exact readVBLoop_eof 5 s 0 0 h0 h1 hlt5 (fun j hj => (hbytes j hj).1)
  · intro ⟨hge5, hbytes⟩
    unfold ArrayDataStream.readUnsignedVB
    have := readVBLoop_allCont 5 s 0 0 h0 (by push_cast; omega)
      (fun j hj => (hbytes j hj).1)
    simpa using this

/-- Witness for C3: five continuation bytes give 0 and advance pos by 5; a
single truncated continuation byte gives 0 with eof set. -/
theorem C3_malformed_vb_witness :
    (mkStream [133, 133, 133, 133, 133]).readUnsignedVB =
      (0, { mkStream [133, 133, 133, 133, 133] with
              pos := (mkStream [133, 133, 133, 133, 133]).pos + 5 }) ∧
    (mkStream [133]).readUnsignedVB =
      (0, { mkStream [133] with pos := (mkStream [133]).endPos, eof := true }) :=
  ⟨(C3_malformed_vb (mkStream [133, 133, 133, 133, 133]) (by decide) (by decide)).2
      ⟨by decide, by decide⟩,
   (C3_malformed_vb (mkStream [133]) (by decide) (by decide)).1
    ⟨by decide, by
      intro j hj
      rw [show (mkStream [133]).endPos - (mkStream [133]).pos = 1 from by decide] at hj
      have hj0 : j = 0 := by omega
      subst hj0
      decide⟩⟩

/-- C5: evaluation of readTag2_3SVariable on a concrete stream whose lead byte
has selector bits 2 (bytes 0x8F 0xC3 0x55, output array primed with 77 in slot
0). The 8-8-7 layout of the claim and of the source comment would put the
8-bit field, 63, into values[0]; the code instead leaves values[0] untouched
(77), assigns values[1] twice, and produces [77, 7, -43]. -/
theorem C5_readTag2_3SVariable_case2 :
    jsShr 143 6 = 2 ∧
    ((mkStream [143, 195, 85]).readTag2_3SVariable [77, 0, 0]).1 = [77, 7, -43] ∧
    signExtend8Bit (jsOr (jsShl (jsAnd 143 0x3f) 2) (jsShr (jsAnd 195 0xc0) 6)) = 63 := by
  decide

theorem nextOffsetInnerAux_spec (d needle : List Int) (i : Int) : ∀ (fuel : Nat) (j0 : Nat),
    j0 ≤ needle.length → needle.length ≤ j0 + fuel →
    (nextOffsetInnerAux d needle i j0 fuel = needle.length ↔
      ∀ j : Nat, j0 ≤ j → j < needle.length → dataGet d (i + j) = needle.getD j 0) := by
  intro fuel
  induction fuel with
  | zero =>
    intro j0 h1 h2
    have hj0 : j0 = needle.length := by omega
    subst hj0
    constructor
    · intro _ j hj1 hj2
      omega
    · intro _
      rfl
  | succ n ih =>
    intro j0 h1 h2
    rw [nextOffsetInnerAux]
    by_cases h : j0 < needle.length ∧ dataGet d (i + j0) = needle.getD j0 0
    · rw [if_pos h, ih (j0 + 1) (by omega) (by omega)]
      constructor
      · intro hall j hj1 hj2
        rcases Nat.eq_or_lt_of_le hj1 with heq | hlt
        · subst heq
          exact h.2
        · exact hall j hlt hj2
      · intro hall j hj1 hj2
        exact hall j (by omega) hj2
    · rw [if_neg h]
      rcases Nat.eq_or_lt_of_le h1 with heq | hlt
      · subst heq
        constructor
        · intro _ j hj1 hj2
          omega
        · intro _
          rfl
      · constructor
        · intro habs
          omega
        · intro hall
          exfalso
          exact h ⟨hlt, hall j0 (le_refl _) hlt⟩

theorem nextOffsetInner_spec (d needle : List Int) (i : Int) (j0 : Nat)
    (hle : j0 ≤ needle.length) :
    (nextOffsetInner d needle i j0 = needle.length ↔
      ∀ j : Nat, j0 ≤ j → j < needle.length → dataGet d (i + j) = needle.getD j 0) :=
  nextOffsetInnerAux_spec d needle i (needle.length + 1 - j0) j0 hle (by omega)

theorem match_iff_occurs (d needle : List Int) (hne : needle ≠ []) (i : Int) :
    (dataGet d i = needle.getD 0 0 ∧ nextOffsetInner d needle i 1 = needle.length) ↔
      occursAt d needle i := by
  have hlp : 1 ≤ needle.length := List.length_pos.2 hne
  rw [nextOffsetInner_spec d needle i 1 hlp]
  unfold occursAt
  constructor
  · intro ⟨h0, hrest⟩ j hj
    rcases Nat.eq_zero_or_pos j with h | h
    · subst h
      simpa using h0
    · exact hrest j h hj
  · intro hall
    refine ⟨by simpa using hall 0 hlp, fun j hj1 hj2 => hall j hj2⟩

theorem nextOffsetAuxF_spec (d needle : List Int) (hne : needle ≠ []) (e : Int) :
    ∀ (fuel : Nat) (i : Int), 0 ≤ i → (e - needle.length + 1 - i).toNat ≤ fuel →
    (nextOffsetAuxF d needle e i fuel = -1 →
      ∀ k : Int, i ≤ k → k ≤ e - needle.length → ¬ occursAt d needle k) ∧
    (nextOffsetAuxF d needle e i fuel ≠ -1 →
      occursAt d needle (nextOffsetAuxF d needle e i fuel) ∧
      ∀ k : Int, i ≤ k → k < nextOffsetAuxF d needle e i fuel → ¬ occursAt d needle k) := by
  intro fuel
  induction fuel with
  | zero =>
    intro i hi hfu
    simp only [nextOffsetAuxF]
    constructor
    · intro _ k hk1 hk2
      exfalso
      omega
    · intro habs
      exact absurd rfl habs
  | succ n ih =>
    intro i hi hfu
    rw [nextOffsetAuxF]
    by_cases hc : i ≤ e - needle.length
    · rw [if_pos hc]
      by_cases hm : dataGet d i = needle.getD 0 0 ∧ nextOffsetInner d needle i 1 = needle.length
      · rw [if_pos hm]
        constructor
        · intro habs
          exfalso
          omega
        · intro _
          refine ⟨(match_iff_occurs d needle hne i).1 hm, ?_⟩
          intro k hk1 hk2
          omega
      · rw [if_neg hm]
        have ihs := ih (i + 1) (by omega) (by omega)
        have hnotocc : ¬ occursAt d needle i := fun hocc =>
          hm ((match_iff_occurs d needle hne i).2 hocc)
        constructor
        · intro hm1 k hk1 hk2
          rcases eq_or_lt_of_le hk1 with heq | hlt
          · subst heq
            exact hnotocc
          · exact ihs.1 hm1 k (by omega) hk2
        · intro hm1
          refine ⟨(ihs.2 hm1).1, ?_⟩
          intro k hk1 hk2
          rcases eq_or_lt_of_le hk1 with heq | hlt
          · subst heq
            exact hnotocc
          · exact (ihs.2 hm1).2 k (by omega) hk2
    · rw [if_neg hc]
      constructor
      · intro _ k hk1 hk2
        exfalso
        omega
      · intro habs
        exact absurd rfl habs

theorem nextOffsetAux_spec (d needle : List Int) (hne : needle ≠ []) (e : Int) : ∀ i : Int,
    0 ≤ i →
    (nextOffsetAux d needle e i = -1 →
      ∀ k : Int, i ≤ k → k ≤ e - needle.length → ¬ occursAt d needle k) ∧
    (nextOffsetAux d needle e i ≠ -1 →
      occursAt d needle (nextOffsetAux d needle e i) ∧
      ∀ k : Int, i ≤ k → k < nextOffsetAux d needle e i → ¬ occursAt d needle k) := by
  intro i hi
  exact nextOffsetAuxF_spec d needle hne e _ i hi (le_refl _)

theorem allIndicesAux_spec (d marker : List Int) (hne : marker ≠ []) (e : Int) :
    ∀ (fuel : Nat) (pos : Int), 0 ≤ pos → (e - pos).toNat < fuel →
    (allIndicesAux d marker e pos fuel).1 ≠ [] ∧
    (allIndicesAux d marker e pos fuel).1.getLast? = some e ∧
    List.Chain' (· < ·) (allIndicesAux d marker e pos fuel).1 ∧
    (∀ a ∈ (allIndicesAux d marker e pos fuel).1, pos ≤ a ∨ a = e) ∧
    (∀ a ∈ (allIndicesAux d marker e pos fuel).1.dropLast,
      pos ≤ a ∧ a ≤ e - marker.length ∧ occursAt d marker a) ∧
    (∀ k : Int, pos ≤ k → k ≤ e - marker.length → occursAt d marker k →
      k ∈ (allIndicesAux d marker e pos fuel).1 ∨
      ∃ a ∈ (allIndicesAux d marker e pos fuel).1.dropLast,
        a < k ∧ k < a + marker.length) := by
  have hlp : 1 ≤ marker.length := List.length_pos.2 hne
  intro fuel
  induction fuel with
  | zero =>
    intro pos _ hfu
    omega
  | succ n ih =>
    intro pos hpos hfu
    have hnsp := nextOffsetAux_spec d marker hne e pos hpos
    by_cases hidx : nextOffsetAux d marker e pos = -1
    · simp only [allIndicesAux, if_pos hidx]
      refine ⟨by simp, by simp, by simp, by simp, by simp, ?_⟩
      intro k hk1 hk2 hocc
      exact absurd hocc (hnsp.1 hidx k hk1 hk2)
    · simp only [allIndicesAux, if_neg hidx]
      have hrange := nextOffsetAux_range hidx
      have hocc := (hnsp.2 hidx).1
      have hmin := (hnsp.2 hidx).2
      set idx := nextOffsetAux d marker e pos with hidxdef
      have hpos' : (0:Int) ≤ idx + marker.length := by
        have : (0:Int) ≤ (marker.length : Int) := by positivity
        omega
      have hfu' : (e - (idx + marker.length)).toNat < n := by
        have h1 : (1:Int) ≤ (marker.length : Int) := by exact_mod_cast hlp
        omega
      have ihs := ih (idx + marker.length) hpos' hfu'
      obtain ⟨hne', hlast, hchain, hmem, hdrop, hcompl⟩ := ihs
      set rest := (allIndicesAux d marker e (idx + marker.length) n).1 with hrestdef
      have h1len : (1:Int) ≤ (marker.length : Int) := by exact_mod_cast hlp
      have hidxlt : ∀ a ∈ rest, idx < a := by
        intro a ha
        rcases hmem a ha with h | h
        · omega
        · omega
      obtain ⟨b, t, hbt⟩ := List.exists_cons_of_ne_nil hne'
      refine ⟨by simp, ?_, ?_, ?_, ?_, ?_⟩
      · rw [hbt]
        rw [hbt] at hlast
        simpa using hlast
      · rw [List.chain'_cons']
        refine ⟨?_, hchain⟩
        intro y hy
        exact hidxlt y (List.mem_of_mem_head? hy)
      · intro a ha
        rcases List.mem_cons.1 ha with h | h
        · left
          omega
        · rcases hmem a h with h2 | h2
          · left
            omega
          · right
            exact h2
      · intro a ha
        rw [hbt] at ha
        rw [List.dropLast_cons₂] at ha
        rcases List.mem_cons.1 ha with h | h
        · subst h
          exact ⟨hrange.1, hrange.2, hocc⟩
        · rw [← hbt] at h
          have := hdrop a h
          refine ⟨by omega, this.2.1, this.2.2⟩
      · intro k hk1 hk2 hocck
        rcases lt_trichotomy k idx with hlt | heq | hgt
        · exact absurd hocck (hmin k hk1 hlt)
        · subst heq
          left
          exact List.mem_cons_self _ _
        · by_cases hcase : k < idx + marker.length
          · right
            refine ⟨idx, ?_, hgt, hcase⟩
            rw [hbt, List.dropLast_cons₂]
            exact List.mem_cons_self _ _
          · push_neg at hcase
            rcases hcompl k hcase hk2 hocck with h | ⟨a, ha1, ha2⟩
            · left
              exact List.mem_cons_of_mem _ h
            · right
              refine ⟨a, ?_, ha2⟩
              rw [hbt, List.dropLast_cons₂]
              rw [hbt] at ha1
              exact List.mem_cons_of_mem _ ha1

/-- C6 (amended): for a non-empty marker and a stream with non-negative pos,
allIndicesOf returns a strictly increasing list ending in the sentinel end;
every entry before the sentinel is an occurrence of the marker in
[pos, end - len(marker)], and every occurrence in that range is either
returned or overlaps a returned occurrence (the scan resumes at the previous
match plus the marker length, skipping overlapping occurrences). -/
theorem C6_allIndicesOf (s : ArrayDataStream) (marker : List Int) (hne : marker ≠ [])
    (hpos : 0 ≤ s.pos) :
    (s.allIndicesOf marker).1 ≠ [] ∧
    (s.allIndicesOf marker).1.getLast? = some s.endPos ∧
    List.Chain' (· < ·) (s.allIndicesOf marker).1 ∧
    (∀ a ∈ (s.allIndicesOf marker).1.dropLast,
      s.pos ≤ a ∧ a ≤ s.endPos - marker.length ∧ occursAt s.data marker a) ∧
    (∀ k : Int, s.pos ≤ k → k ≤ s.endPos - marker.length → occursAt s.data marker k →
      k ∈ (s.allIndicesOf marker).1 ∨
      ∃ a ∈ (s.allIndicesOf marker).1.dropLast, a < k ∧ k < a + marker.length) := by
  have h := allIndicesAux_spec s.data marker hne s.endPos
    ((s.endPos - s.pos).toNat + 1) s.pos hpos (by omega)
  unfold ArrayDataStream.allIndicesOf
  simp only
  exact ⟨h.1, h.2.1, h.2.2.1, h.2.2.2.2.1, h.2.2.2.2.2⟩

/-- C6 counterexample to the claim as stated: in the buffer "aaa" the marker
"aa" occurs at offsets 0 and 1, both within [pos, end - 2], but allIndicesOf
returns only [0] plus the sentinel: the overlapping occurrence at 1 is
skipped. -/
theorem C6_counterexample :
    ((mkStream [97, 97, 97]).allIndicesOf [97, 97]).1 = [0, 3] ∧
    occursAt [97, 97, 97] [97, 97] 1 ∧
    (0 : Int) ≤ (1 : Int) ∧
    (1 : Int) ≤ (mkStream [97, 97, 97]).endPos - (([97, 97] : List Int).length : Int) ∧
    (1 : Int) ∉ ((mkStream [97, 97, 97]).allIndicesOf [97, 97]).1 := by
  decide

/-- Witness for C6 at a concrete buffer and marker. -/
theorem C6_allIndicesOf_witness :
    (([97] : List Int) ≠ [] ∧ (0 : Int) ≤ (mkStream [97, 98, 97]).pos) ∧
    (((mkStream [97, 98, 97]).allIndicesOf [97]).1 ≠ [] ∧
     ((mkStream [97, 98, 97]).allIndicesOf [97]).1.getLast? =
       some (mkStream [97, 98, 97]).endPos ∧
     List.Chain' (· < ·) ((mkStream [97, 98, 97]).allIndicesOf [97]).1 ∧
     (∀ a ∈ ((mkStream [97, 98, 97]).allIndicesOf [97]).1.dropLast,
       (mkStream [97, 98, 97]).pos ≤ a ∧
       a ≤ (mkStream [97, 98, 97]).endPos - (([97] : List Int).length : Int) ∧
       occursAt (mkStream [97, 98, 97]).data [97] a) ∧
     (∀ k : Int, (mkStream [97, 98, 97]).pos ≤ k →
       k ≤ (mkStream [97, 98, 97]).endPos - (([97] : List Int).length : Int) →
       occursAt (mkStream [97, 98, 97]).data [97] k →
       k ∈ ((mkStream [97, 98, 97]).allIndicesOf [97]).1 ∨
       ∃ a ∈ ((mkStream [97, 98, 97]).allIndicesOf [97]).1.dropLast,
         a < k ∧ k < a + (([97] : List Int).length : Int))) :=
  ⟨⟨by decide, by decide⟩, C6_allIndicesOf (mkStream [97, 98, 97]) [97] (by decide) (by decide)⟩

theorem sorted_getD_mono {l : List Int} (hs : l.Sorted (· ≤ ·)) {i j : Nat} (hij : i ≤ j)
    (hj : j < l.length) : l.getD i 0 ≤ l.getD j 0 := by
  rcases Nat.eq_or_lt_of_le hij with heq | hlt
  · subst heq
    exact le_refl _
  · have hi : i < l.length := by omega
    rw [List.getD_eq_getElem l 0 hi, List.getD_eq_getElem l 0 hj]
    exact List.pairwise_iff_getElem.1 hs i j hi hj hlt

theorem bsPrevAux_bounds (l : List Int) (x : Int) : ∀ (fuel : Nat) (mn mx : Nat) (res : Int),
    mx ≤ l.length → 0 ≤ res → res < l.length →
    0 ≤ binarySearchOrPreviousAux l x mn mx res fuel ∧
    binarySearchOrPreviousAux l x mn mx res fuel < l.length := by
  intro fuel
  induction fuel with
  | zero =>
    intro mn mx res _ h1 h2
    exact ⟨h1, h2⟩
  | succ n ih =>
    intro mn mx res hmx h1 h2
    rw [binarySearchOrPreviousAux]
    by_cases hlt : mn < mx
    · rw [if_pos hlt]
      have hmid : (mn + mx) / 2 < mx := by omega
      by_cases he : l.getD ((mn + mx) / 2) 0 = x
      · rw [if_pos he]
        constructor
        · positivity
        · exact_mod_cast by omega
      · rw [if_neg he]
        by_cases hl : l.getD ((mn + mx) / 2) 0 < x
        · rw [if_pos hl]
          exact ih _ _ _ hmx (by positivity) (by exact_mod_cast by omega)
        · rw [if_neg hl]
          exact ih _ _ _ (by omega) h1 h2
    · rw [if_neg hlt]
      exact ⟨h1, h2⟩

theorem bsNextAux_bounds (l : List Int) (x : Int) : ∀ (fuel : Nat) (mn mx : Nat) (res : Int),
    mx ≤ l.length → 0 ≤ res → res < l.length →
    0 ≤ binarySearchOrNextAux l x mn mx res fuel ∧
    binarySearchOrNextAux l x mn mx res fuel < l.length := by
  intro fuel
  induction fuel with
  | zero =>
    intro mn mx res _ h1 h2
    exact ⟨h1, h2⟩
  | succ n ih =>
    intro mn mx res hmx h1 h2
    rw [binarySearchOrNextAux]
    by_cases hlt : mn < mx
    · rw [if_pos hlt]
      have hmid : (mn + mx) / 2 < mx := by omega
      by_cases he : l.getD ((mn + mx) / 2) 0 = x
      · rw [if_pos he]
        constructor
        · positivity
        · exact_mod_cast by omega
      · rw [if_neg he]
        by_cases hg : x < l.getD ((mn + mx) / 2) 0
        · rw [if_pos hg]
          exact ih _ _ _ (by omega) (by positivity) (by exact_mod_cast by omega)
        · rw [if_neg hg]
          exact ih _ _ _ hmx h1 h2
    · rw [if_neg hlt]
      exact ⟨h1, h2⟩

theorem bsPrevAux_sorted (l : List Int) (x : Int) (hs : l.Sorted (· ≤ ·)) :
    ∀ (fuel : Nat) (mn mx : Nat) (res : Int),
    mx ≤ l.length → mn ≤ mx → mx - mn < fuel →
    (∀ i : Nat, i < mn → l.getD i 0 < x) →
    (∀ i : Nat, mx ≤ i → i < l.length → x < l.getD i 0) →
    ((res = 0 ∧ mn = 0) ∨ (1 ≤ mn ∧ res = (mn : Int) - 1 ∧ l.getD (mn - 1) 0 < x)) →
    (∃ j : Nat, binarySearchOrPreviousAux l x mn mx res fuel = (j : Int) ∧ j < l.length ∧
      l.getD j 0 = x) ∨
    ((∀ j : Nat, j < l.length → l.getD j 0 ≠ x) ∧
      ((binarySearchOrPreviousAux l x mn mx res fuel = 0 ∧
        ∀ j : Nat, j < l.length → x < l.getD j 0) ∨
       (∃ j : Nat, binarySearchOrPreviousAux l x mn mx res fuel = (j : Int) ∧ j < l.length ∧
        l.getD j 0 < x ∧ ∀ k : Nat, k < l.length → l.getD k 0 < x → k ≤ j))) := by
  intro fuel
  induction fuel with
  | zero =>
    intro mn mx res _ _ hfu _ _ _
    omega
  | succ n ih =>
    intro mn mx res hmx hmn hfu hlo hhi hres
    rw [binarySearchOrPreviousAux]
    by_cases hlt : mn < mx
    · rw [if_pos hlt]
      have hm1 : mn ≤ (mn + mx) / 2 := by omega
      have hm2 : (mn + mx) / 2 < mx := by omega
      have hmlen : (mn + mx) / 2 < l.length := by omega
      by_cases he : l.getD ((mn + mx) / 2) 0 = x
      · rw [if_pos he]
        exact Or.inl ⟨(mn + mx) / 2, rfl, hmlen, he⟩
      · rw [if_neg he]
        by_cases hl : l.getD ((mn + mx) / 2) 0 < x
        · rw [if_pos hl]
          refine ih ((mn + mx) / 2 + 1) mx _ hmx (by omega) (by omega) ?_ hhi ?_
          · intro i hi
            rcases Nat.lt_or_ge i mn with h | h
            · exact hlo i h
            · calc l.getD i 0 ≤ l.getD ((mn + mx) / 2) 0 :=
                sorted_getD_mono hs (by omega) hmlen
              _ < x := hl
          · right
            refine ⟨by omega, by push_cast; ring, ?_⟩
            simpa using hl
        · rw [if_neg hl]
          have hgt : x < l.getD ((mn + mx) / 2) 0 := by
            rcases lt_trichotomy (l.getD ((mn + mx) / 2) 0) x with h | h | h
            · exact absurd h hl
            · exact absurd h he
            · exact h
          refine ih mn ((mn + mx) / 2) res (by omega) (by omega) (by omega) hlo ?_ hres
          intro i hi1 hi2
          calc x < l.getD ((mn + mx) / 2) 0 := hgt
          _ ≤ l.getD i 0 := sorted_getD_mono hs hi1 hi2
    · rw [if_neg hlt]
      have heq : mn = mx := by omega
      subst heq
      have hnox : ∀ j : Nat, j < l.length → l.getD j 0 ≠ x := by
        intro j hj
        rcases Nat.lt_or_ge j mn with h | h
        · exact ne_of_lt (hlo j h)
        · exact (ne_of_lt (hhi j h hj)).symm
      rcases hres with ⟨h0, hmn0⟩ | ⟨h1, hres, hlast⟩
      · subst hmn0
        refine Or.inr ⟨hnox, Or.inl ⟨h0, ?_⟩⟩
        intro j hj
        exact hhi j (by omega) hj
      · refine Or.inr ⟨hnox, Or.inr ⟨mn - 1, ?_, by omega, hlast, ?_⟩⟩
        · rw [hres]
          push_cast
          omega
        · intro k hk hkx
          by_contra hc
          push_neg at hc
          have : mn ≤ k := by omega
          exact absurd hkx (not_lt.2 (le_of_lt (hhi k this hk)))

theorem bsNextAux_sorted (l : List Int) (x : Int) (hs : l.Sorted (· ≤ ·)) :
    ∀ (fuel : Nat) (mn mx : Nat) (res : Int),
    mx ≤ l.length → mn ≤ mx → mx - mn < fuel →
    (∀ i : Nat, i < mn → l.getD i 0 < x) →
    (∀ i : Nat, mx ≤ i → i < l.length → x < l.getD i 0) →
    ((res = (l.length : Int) - 1 ∧ mx = l.length) ∨
      (mx < l.length ∧ res = (mx : Int) ∧ x < l.getD mx 0)) →
    (∃ j : Nat, binarySearchOrNextAux l x mn mx res fuel = (j : Int) ∧ j < l.length ∧
      l.getD j 0 = x) ∨
    ((∀ j : Nat, j < l.length → l.getD j 0 ≠ x) ∧
      ((binarySearchOrNextAux l x mn mx res fuel = (l.length : Int) - 1 ∧
        ∀ j : Nat, j < l.length → l.getD j 0 < x) ∨
       (∃ j : Nat, binarySearchOrNextAux l x mn mx res fuel = (j : Int) ∧ j < l.length ∧
        x < l.getD j 0 ∧ ∀ k : Nat, k < l.length → x < l.getD k 0 → j ≤ k))) := by
  intro fuel
  induction fuel with
  | zero =>
    intro mn mx res _ _ hfu _ _ _
    omega
  | succ n ih =>
    intro mn mx res hmx hmn hfu hlo hhi hres
    rw [binarySearchOrNextAux]
    by_cases hlt : mn < mx
    · rw [if_pos hlt]
      have hm1 : mn ≤ (mn + mx) / 2 := by omega
      have hm2 : (mn + mx) / 2 < mx := by omega
      have hmlen : (mn + mx) / 2 < l.length := by omega
      by_cases he : l.getD ((mn + mx) / 2) 0 = x
      · rw [if_pos he]
        exact Or.inl ⟨(mn + mx) / 2, rfl, hmlen, he⟩
      · rw [if_neg he]
        by_cases hg : x < l.getD ((mn + mx) / 2) 0
        · rw [if_pos hg]
          refine ih mn ((mn + mx) / 2) _ (by omega) (by omega) (by omega) hlo ?_ ?_
          · intro i hi1 hi2
            calc x < l.getD ((mn + mx) / 2) 0 := hg
            _ ≤ l.getD i 0 := sorted_getD_mono hs hi1 hi2
          · exact Or.inr ⟨hmlen, rfl, hg⟩
        · rw [if_neg hg]
          have hltx : l.getD ((mn + mx) / 2) 0 < x := by
            rcases lt_trichotomy (l.getD ((mn + mx) / 2) 0) x with h | h | h
            · exact h
            · exact absurd h he
            · exact absurd h hg
          refine ih ((mn + mx) / 2 + 1) mx res hmx (by omega) (by omega) ?_ hhi hres
          intro i hi
          rcases Nat.lt_or_ge i mn with h | h
          · exact hlo i h
          · calc l.getD i 0 ≤ l.getD ((mn + mx) / 2) 0 :=
              sorted_getD_mono hs (by omega) hmlen
            _ < x := hltx
    · rw [if_neg hlt]
      have heq : mn = mx := by omega
      subst heq
      have hnox : ∀ j : Nat, j < l.length → l.getD j 0 ≠ x := by
        intro j hj
        rcases Nat.lt_or_ge j mn with h | h
        · exact ne_of_lt (hlo j h)
        · exact (ne_of_lt (hhi j h hj)).symm
      rcases hres with ⟨h0, hmnlen⟩ | ⟨h1, hres, hfirst⟩
      · refine Or.inr ⟨hnox, Or.inl ⟨h0, ?_⟩⟩
        intro j hj
        exact hlo j (by omega)
      · refine Or.inr ⟨hnox, Or.inr ⟨mn, hres, h1, hfirst, ?_⟩⟩
        intro k hk hkx
        by_contra hc
        push_neg at hc
        exact absurd hkx (not_lt.2 (le_of_lt (hlo k hc)))

theorem getD_mem_of_lt {l : List Int} {j : Nat} (hj : j < l.length) : l.getD j 0 ∈ l := by
  rw [List.getD_eq_getElem l 0 hj]
  exact List.getElem_mem hj

theorem mem_iff_getD {l : List Int} (v : Int) :
    v ∈ l ↔ ∃ j : Nat, j < l.length ∧ l.getD j 0 = v := by
  rw [List.mem_iff_getElem]
  constructor
  · rintro ⟨n, h, he⟩
    refine ⟨n, h, ?_⟩
    rw [List.getD_eq_getElem l 0 h]
    exact he
  · rintro ⟨n, h, he⟩
    refine ⟨n, h, ?_⟩
    rw [← List.getD_eq_getElem l 0 h]
    exact he

/-- C10 (amended): both binary searches return an index in [0, length-1] for
every non-empty list (sorted or not); on the empty list binarySearchOrPrevious
returns 0 and binarySearchOrNext returns -1; and on a sorted non-empty list
binarySearchOrPrevious returns 0 when the item is smaller than all elements
and otherwise the index of the item or of the largest element smaller than the
item, while binarySearchOrNext returns length-1 when the item is larger than
all elements and otherwise the index of the item or of the smallest element
larger than the item. -/
theorem C10_binary_search (l : List Int) (x : Int) :
    (binarySearchOrPrevious ([] : List Int) x = 0 ∧
     binarySearchOrNext ([] : List Int) x = -1) ∧
    (l ≠ [] →
      (0 ≤ binarySearchOrPrevious l x ∧ binarySearchOrPrevious l x < l.length) ∧
      (0 ≤ binarySearchOrNext l x ∧ binarySearchOrNext l x < l.length)) ∧
    (l ≠ [] → l.Sorted (· ≤ ·) →
      ((∀ v ∈ l, x < v) → binarySearchOrPrevious l x = 0) ∧
      (x ∈ l → l.getD (binarySearchOrPrevious l x).toNat 0 = x) ∧
      (x ∉ l → (∃ v ∈ l, v < x) →
        l.getD (binarySearchOrPrevious l x).toNat 0 < x ∧
        ∀ j : Nat, j < l.length → l.getD j 0 < x → (j : Int) ≤ binarySearchOrPrevious l x) ∧
      ((∀ v ∈ l, v < x) → binarySearchOrNext l x = (l.length : Int) - 1) ∧
      (x ∈ l → l.getD (binarySearchOrNext l x).toNat 0 = x) ∧
      (x ∉ l → (∃ v ∈ l, x < v) →
        x < l.getD (binarySearchOrNext l x).toNat 0 ∧
        ∀ j : Nat, j < l.length → x < l.getD j 0 → binarySearchOrNext l x ≤ (j : Int))) := by
  refine ⟨⟨rfl, rfl⟩, ?_, ?_⟩
  · intro hne
    have hlp : 1 ≤ l.length := List.length_pos.2 hne
    constructor
    · exact bsPrevAux_bounds l x (l.length + 1) 0 l.length 0 (le_refl _) (le_refl _)
        (by exact_mod_cast hlp)
    · refine bsNextAux_bounds l x (l.length + 1) 0 l.length ((l.length : Int) - 1)
        (le_refl _) (by push_cast; omega) (by push_cast; omega)
  · intro hne hs
    have hlp : 1 ≤ l.length := List.length_pos.2 hne
    have HP := bsPrevAux_sorted l x hs (l.length + 1) 0 l.length 0 (le_refl _) (by omega)
      (by omega) (by omega) (by intro i h1 h2; omega) (Or.inl ⟨rfl, rfl⟩)
    have HN := bsNextAux_sorted l x hs (l.length + 1) 0 l.length ((l.length : Int) - 1)
      (le_refl _) (by omega) (by omega) (by omega) (by intro i h1 h2; omega)
      (Or.inl ⟨rfl, rfl⟩)
    rw [show binarySearchOrPreviousAux l x 0 l.length 0 (l.length + 1) =
      binarySearchOrPrevious l x from rfl] at HP
    rw [show binarySearchOrNextAux l x 0 l.length ((l.length : Int) - 1) (l.length + 1) =
      binarySearchOrNext l x from rfl] at HN
    refine ⟨?_, ?_, ?_, ?_, ?_, ?_⟩
    · intro hall
      rcases HP with ⟨j, hje, hjl, hjx⟩ | ⟨hnox, ⟨h0, _⟩ | ⟨j, hje, hjl, hjlt, _⟩⟩
      · exact absurd (hall _ (getD_mem_of_lt hjl)) (by rw [hjx]; exact lt_irrefl x)
      · exact h0
      · exact absurd (hall _ (getD_mem_of_lt hjl)) (not_lt.2 (le_of_lt hjlt))
    · intro hx
      rcases HP with ⟨j, hje, hjl, hjx⟩ | ⟨hnox, _⟩
      · rw [hje]
        simpa using hjx
      · obtain ⟨j, hjl, hjx⟩ := (mem_iff_getD x).1 hx
        exact absurd hjx (hnox j hjl)
    · intro hx ⟨v, hv, hvx⟩
      rcases HP with ⟨j, hje, hjl, hjx⟩ | ⟨hnox, ⟨h0, hallgt⟩ | ⟨j, hje, hjl, hjlt, hjmax⟩⟩
      · exact absurd ((mem_iff_getD x).2 ⟨j, hjl, hjx⟩) hx
      · obtain ⟨j, hjl, hjv⟩ := (mem_iff_getD v).1 hv
        have := hallgt j hjl
        omega
      · constructor
        · rw [hje]
          simpa using hjlt
        · intro k hk hkx
          have := hjmax k hk hkx
          rw [hje]
          exact_mod_cast this
    · intro hall
      rcases HN with ⟨j, hje, hjl, hjx⟩ | ⟨hnox, ⟨h0, _⟩ | ⟨j, hje, hjl, hjgt, _⟩⟩
      · exact absurd (hall _ (getD_mem_of_lt hjl)) (by rw [hjx]; exact lt_irrefl x)
      · exact h0
      · exact absurd (hall _ (getD_mem_of_lt hjl)) (not_lt.2 (le_of_lt hjgt))
    · intro hx
      rcases HN with ⟨j, hje, hjl, hjx⟩ | ⟨hnox, _⟩
      · rw [hje]
        simpa using hjx
      · obtain ⟨j, hjl, hjx⟩ := (mem_iff_getD x).1 hx
        exact absurd hjx (hnox j hjl)
    · intro hx ⟨v, hv, hvx⟩
      rcases HN with ⟨j, hje, hjl, hjx⟩ | ⟨hnox, ⟨h0, halllt⟩ | ⟨j, hje, hjl, hjgt, hjmin⟩⟩
      · exact absurd ((mem_iff_getD x).2 ⟨j, hjl, hjx⟩) hx
      · obtain ⟨j, hjl, hjv⟩ := (mem_iff_getD v).1 hv
        have := halllt j hjl
        omega
      · constructor
        · rw [hje]
          simpa using hjgt
        · intro k hk hkx
          have := hjmin k hk hkx
          rw [hje]
          exact_mod_cast this

/-- C10 counterexample to the claim as stated: on the unsorted non-empty list
[0, 5, 1] with item 3, binarySearchOrPrevious returns 0, but the element
there is neither the item, nor the largest element smaller than the item
(index 2 holds 1 > 0), and the item is not smaller than all elements. -/
theorem C10_counterexample :
    binarySearchOrPrevious [0, 5, 1] 3 = 0 ∧
    ([0, 5, 1] : List Int).getD 0 0 ≠ 3 ∧
    (¬ ∀ i : Nat, i < 3 → (3 : Int) < ([0, 5, 1] : List Int).getD i 0) ∧
    ([0, 5, 1] : List Int).getD 2 0 < 3 ∧
    ([0, 5, 1] : List Int).getD 0 0 < ([0, 5, 1] : List Int).getD 2 0 := by
  refine ⟨by decide, by decide, ?_, by decide, by decide⟩
  intro hall
  have := hall 0 (by omega)
  revert this
  decide

/-- Witness for C10 on a concrete sorted list. -/
theorem C10_binary_search_witness :
    (([1, 3, 5] : List Int) ≠ [] ∧ ([1, 3, 5] : List Int).Sorted (· ≤ ·)) ∧
    (0 ≤ binarySearchOrPrevious [1, 3, 5] 4 ∧
      binarySearchOrPrevious [1, 3, 5] 4 < ([1, 3, 5] : List Int).length) ∧
    ((4 : Int) ∉ ([1, 3, 5] : List Int) → (∃ v ∈ ([1, 3, 5] : List Int), v < 4) →
      ([1, 3, 5] : List Int).getD (binarySearchOrPrevious [1, 3, 5] 4).toNat 0 < 4 ∧
      ∀ j : Nat, j < ([1, 3, 5] : List Int).length →
        ([1, 3, 5] : List Int).getD j 0 < 4 → (j : Int) ≤ binarySearchOrPrevious [1, 3, 5] 4) :=
  ⟨⟨by decide, by decide⟩,
   ((C10_binary_search [1, 3, 5] 4).2.1 (by decide)).1,
   ((C10_binary_search [1, 3, 5] 4).2.2 (by decide) (by decide)).2.2.1⟩


/-- C7: evaluation of parseCommaSeparatedString at the failing input ".5,1"
(character codes [46, 53, 44, 49]) with requested length 2. The part ".5"
contains a dot, so the claim says it is coerced to the float 0.5 (indeed
jsParseFloat gives 1/2 on it); the code instead takes the parseInt branch
because indexOf returns the falsy 0, parseInt fails (NaN), and the entry
falls back to the literal string ".5". -/
theorem C7_parseCommaSeparatedString_dot :
    parseCommaSeparatedString [46, 53, 44, 49] 2 =
      Sum.inr [JSVal.str [46, 53], JSVal.num 1] ∧
    jsStringIndexOfDot [46, 53] = 0 ∧
    jsParseFloat [46, 53] = some (1 / 2 : Rat) := by
  refine ⟨?_, by decide, ?_⟩
  · norm_num [parseCommaSeparatedString, jsSplitOnComma, splitOnCommaAux, coercePart,
      jsStringIndexOfDot, jsParseInt10, jsParseFloat, digitsVal, readSign,
      isSpaceCode, isDigitCode, List.findIdx?, List.dropWhile, List.takeWhile,
      List.range, List.range.loop]
  · norm_num [jsParseFloat, digitsVal, readSign, isSpaceCode, isDigitCode,
      List.dropWhile, List.takeWhile]


/-- parseHeader resets all the state it reads (sysConfig, frameDefs, stats)
and overwrites the stream range, so with both offsets supplied its outcome
depends only on the underlying buffer: the indexer's parser instance and the
facade's parser instance agree whenever they wrap the same log data. -/
theorem parseHeader_deterministic (b1 b2 : ArrayDataStream) (s e : Int)
    (h : b1.data = b2.data) :
    parseHeader b1 (some s) (some e) = parseHeader b2 (some s) (some e) := by
  obtain ⟨d1, st1, e1, p1, f1⟩ := b1
  obtain ⟨d2, st2, e2, p2, f2⟩ := b2
  simp only at h
  subst h
  rfl

